import Mathlib

/-!
Verification development for the hilo-news curation engine.

The definitions below are a shallow embedding of the Python sources
`app/policy.py`, `app/policy_near_dupes.py` and the quality/pagination
phase of `app/main.py` (`get_news`).  Python dict records become the
`Item` structure with `Option String` fields (`None` ↦ `none`,
`d.get(k) or ""` ↦ `Option.getD ""`), in-place list mutation becomes
explicit list transformation, `datetime` values become epoch seconds
(`ℕ`), and the standard-library pieces the code leans on
(`re`, `urllib.parse.urlparse`, `dateutil.parser.parse` /
`datetime.fromisoformat`, `hashlib.sha1`, stable `list.sort`) are
modelled by executable Lean functions that agree with them on the
well-formed inputs this pipeline handles.
-/

/-- A news-item record.  Python code accesses fields with `d.get(...)`;
absent keys are `none`. `policy.py` keys items by `provider`,
`main.py` by `source`; both fields are carried here. -/
structure Item where
  id : Option String
  title : Option String
  summary : Option String
  snippet : Option String
  url : Option String
  provider : Option String
  source : Option String
  imageUrl : Option String
  publishedUtc : Option String
deriving DecidableEq, Repr

/-- Record with every field absent; used as the (never-reached) default
for list indexing, mirroring that Python indexing is always in range. -/
def dummyItem : Item :=
  { id := none, title := none, summary := none, snippet := none, url := none,
    provider := none, source := none, imageUrl := none, publishedUtc := none }

/- ### String helpers (models of Python `str` methods) -/

/-- The characters Python `str.strip()` / `\s` treat as whitespace
(ASCII range; the feeds are ASCII). -/
def isPyWs (c : Char) : Bool :=
  c == ' ' || c == '\t' || c == '\n' || c == '\r' || c == '\x0b' || c == '\x0c'

/-- Python `str.strip()`. -/
def stripS (s : String) : String :=
  String.mk (((s.toList.dropWhile isPyWs).reverse.dropWhile isPyWs).reverse)

/-- Python `str.lower()` (ASCII). -/
def lowerS (s : String) : String :=
  String.mk (s.toList.map Char.toLower)

/-- Number of characters, Python `len`. -/
def slen (s : String) : ℕ := s.toList.length

/-- Python substring test `needle in hay`. -/
def containsSub (hay needle : String) : Bool :=
  (List.range (hay.toList.length + 1)).any
    (fun i => needle.toList.isPrefixOf (hay.toList.drop i))

/-- One step list of Python `str.replace` (replace all, left to right,
non-overlapping); `fuel` bounds recursion and is called with the text
length, which always suffices. -/
def replaceListAux (pat rep : List Char) : ℕ → List Char → List Char
  | 0, text => text
  | _ + 1, [] => []
  | fuel + 1, c :: rest =>
      if pat ≠ [] ∧ pat.isPrefixOf (c :: rest) then
        rep ++ replaceListAux pat rep fuel ((c :: rest).drop pat.length)
      else
        c :: replaceListAux pat rep fuel rest

/-- Python `s.replace(pat, rep)` for non-empty `pat`. -/
def replaceS (s pat rep : String) : String :=
  String.mk (replaceListAux pat.toList rep.toList s.toList.length s.toList)

/-- Python `str.split()` (split on whitespace runs, no empties). -/
def splitWsAux : ℕ → List Char → List String
  | 0, _ => []
  | _ + 1, [] => []
  | fuel + 1, text =>
      let t := text.dropWhile isPyWs
      match t with
      | [] => []
      | _ =>
          let w := t.takeWhile (fun c => !(isPyWs c))
          String.mk w :: splitWsAux fuel (t.drop w.length)

/-- Python `str.split()`. -/
def splitWs (s : String) : List String := splitWsAux s.toList.length s.toList

/-- Python `" ".join`-style join with a separator. -/
def joinSep (sep : String) : List String → String
  | [] => ""
  | [x] => x
  | x :: xs => x ++ sep ++ joinSep sep xs

/-- Python `re.sub(r"\s+", " ", s)`. -/
def collapseWsAux : ℕ → List Char → List Char
  | 0, text => text
  | _ + 1, [] => []
  | fuel + 1, c :: rest =>
      if isPyWs c then ' ' :: collapseWsAux fuel (rest.dropWhile isPyWs)
      else c :: collapseWsAux fuel rest

/-- Python `re.sub(r"\s+", " ", s)`. -/
def collapseWs (s : String) : String :=
  String.mk (collapseWsAux s.toList.length s.toList)

/-- Python `str.rstrip("/")`. -/
def rstripSlash (s : String) : String :=
  String.mk ((s.toList.reverse.dropWhile (fun c => c == '/')).reverse)

/-- Index of the last space, Python `s.rfind(" ")` (callers guard that a
space exists). -/
def rfindSpace (s : String) : ℕ :=
  s.toList.length - 1 - (s.toList.reverse.findIdx (fun c => c == ' '))

/- ### Model of `urllib.parse.urlparse` (netloc and path of common URLs) -/

/-- First index at which `needle` occurs in `hay`. -/
def findSubIdx (hay needle : List Char) : Option ℕ :=
  (List.range (hay.length + 1)).find? (fun i => needle.isPrefixOf (hay.drop i))

/-- Modelled from the standard library: `urlparse(u).netloc` and
`urlparse(u).path` for the absolute / protocol-relative / plain forms
the feeds produce. -/
def urlHostPath (u : String) : String × String :=
  let cs := u.toList
  let split := fun (rest : List Char) =>
    let netloc := rest.takeWhile (fun c => !(c == '/' || c == '?' || c == '#'))
    let after := rest.drop netloc.length
    let path := after.takeWhile (fun c => !(c == '?' || c == '#'))
    (String.mk netloc, String.mk path)
  match findSubIdx cs "://".toList with
  | some i => split (cs.drop (i + 3))
  | none =>
      if "//".toList.isPrefixOf cs then split (cs.drop 2)
      else ("", String.mk (cs.takeWhile (fun c => !(c == '?' || c == '#'))))

/- ### A small matcher for the fixed regular expressions in the source -/

/-- Tokens covering exactly the constructs used by the source patterns:
word boundary, literal, optional whitespace, mandatory whitespace,
optional single character from a set, optional literal, single character
from a set, and greedy dot-star. -/
inductive RTok where
  | wb
  | lit (s : List Char)
  | ws0
  | ws1
  | optCh (cs : List Char)
  | optS (s : List Char)
  | chCls (cs : List Char)
  | dotStar

/-- Python `\w` (ASCII). -/
def isWordChar (c : Char) : Bool := c.isAlphanum || c == '_'

/-- `\b` between an optional previous char and an optional next char. -/
def bnd (prev nxt : Option Char) : Bool :=
  (match prev with | some c => isWordChar c | none => false)
    != (match nxt with | some c => isWordChar c | none => false)

/-- Last character after consuming `consumed`, falling back to `prev`. -/
def lastCh (prev : Option Char) (consumed : List Char) : Option Char :=
  match consumed.getLast? with
  | some c => some c
  | none => prev

/-- Does the token sequence match a prefix of `text` (with `prev` the
character just before `text`, for boundaries)?  Backtracking existence
semantics, which coincides with `re.search` success. -/
def matchSeq : List RTok → Option Char → List Char → Bool
  | [], _, _ => true
  | .wb :: ts, prev, text => bnd prev text.head? && matchSeq ts prev text
  | .lit s :: ts, prev, text =>
      s.isPrefixOf text && matchSeq ts (lastCh prev s) (text.drop s.length)
  | .chCls cs :: ts, _, text =>
      match text with
      | c :: r => cs.contains c && matchSeq ts (some c) r
      | [] => false
  | .optCh cs :: ts, prev, text =>
      (match text with
       | c :: r => cs.contains c && matchSeq ts (some c) r
       | [] => false) || matchSeq ts prev text
  | .optS s :: ts, prev, text =>
      (s.isPrefixOf text && matchSeq ts (lastCh prev s) (text.drop s.length))
        || matchSeq ts prev text
  | .ws0 :: ts, prev, text =>
      let run := (text.takeWhile isPyWs).length
      (List.range (run + 1)).any
        (fun k => matchSeq ts (lastCh prev (text.take k)) (text.drop k))
  | .ws1 :: ts, prev, text =>
      let run := (text.takeWhile isPyWs).length
      (List.range run).any
        (fun j => matchSeq ts (lastCh prev (text.take (j + 1))) (text.drop (j + 1)))
  | .dotStar :: ts, prev, text =>
      (List.range (text.length + 1)).any
        (fun k => (text.take k).all (fun c => !(c == '\n'))
          && matchSeq ts (lastCh prev (text.take k)) (text.drop k))

/-- `re.search(pattern, text)` success: the sequence matches starting at
some position. -/
def reSearch (toks : List RTok) (text : List Char) : Bool :=
  (List.range (text.length + 1)).any
    (fun i => matchSeq toks ((text.take i).getLast?) (text.drop i))

/-- `_matches_any` from `policy.py`: lowercases the text and tries each
pattern (the patterns are already lowercase, matching `re.IGNORECASE`). -/
def matchesAny (pats : List (List RTok)) (text : String) : Bool :=
  pats.any (fun p => reSearch p (lowerS text).toList)

/-- Whitespace character set for `[\s-]`-style classes. -/
def wsChars : List Char := [' ', '\t', '\n', '\r', '\x0b', '\x0c']

/- ### Provider canonicalization (`policy.py`) -/

def CANON : List (String × String) :=
  [("arsenalinsider.com", "ArsenalInsider"),
   ("paininthearsenal.com", "PainInTheArsenal"),
   ("arseblog.com", "Arseblog"),
   ("standard.co.uk", "EveningStandard"),
   ("dailymail.co.uk", "DailyMail"),
   ("ArsenalInsider", "ArsenalInsider"),
   ("PainInTheArsenal", "PainInTheArsenal"),
   ("Arseblog", "Arseblog"),
   ("EveningStandard", "EveningStandard"),
   ("DailyMail", "DailyMail")]

def canonicalize_provider (p : String) : String :=
  if p = "" then "Unknown"
  else
    let key := replaceS (lowerS (stripS p)) "www." ""
    (CANON.lookup key).getD (stripS p)

def ALLOWED_PROVIDERS : List String :=
  ["EveningStandard", "DailyMail", "Arseblog", "PainInTheArsenal", "ArsenalInsider"]

/- ### Women / U19 filter (`policy.py`) -/

def WOMEN_U19_KEYS : List String :=
  ["women", "wsl", "fa wsl", "wfc", "u19", "under-19", "under 19"]

def is_women_or_u19 (txt : String) : Bool :=
  WOMEN_U19_KEYS.any (fun k => containsSub (lowerS txt) k)

/- ### Arsenal relevance for official press (`policy.py`) -/

def ARS_KEYWORDS : List String :=
  ["arsenal", "gunners", "arteta", "odegaard", "saka", "saliba", "trossard",
   "rice", "white", "havertz", "jesus", "raya", "eze", "mosquera",
   "emirates stadium", "north london derby"]

def text_has_arsenal (text : String) : Bool :=
  let t := lowerS text
  if containsSub t "arsenal" || containsSub t "gunners" then true
  else ARS_KEYWORDS.any (fun k => containsSub t k)

/-- `_ARS_RE = re.compile(r"\barsenal\b", re.IGNORECASE)`. -/
def arsRe : List RTok := [.wb, .lit "arsenal".toList, .wb]

def is_about_arsenal (it : Item) : Bool :=
  let title := it.title.getD ""
  let summary := (it.summary.getD "") ++ " " ++ (it.snippet.getD "")
  let url := it.url.getD ""
  if text_has_arsenal title then true
  else if text_has_arsenal summary then true
  else
    let hp := urlHostPath url
    let host := replaceS (lowerS hp.1) "www." ""
    let path := lowerS hp.2
    if containsSub host "dailymail.co.uk" && containsSub path "/sport/football/arsenal" then true
    else if containsSub host "standard.co.uk" && containsSub path "/sport/football/arsenal" then true
    else reSearch arsRe (lowerS url).toList

/- ### Kind classification (`policy.py`) -/

def PRE_PATTERNS : List (List RTok) :=
  [[.wb, .lit "preview".toList, .wb],
   [.wb, .lit "predicted".toList, .ws0, .lit "line".toList, .optCh ['-', ' '], .lit "up".toList, .wb],
   [.wb, .lit "line".toList, .optCh ['-', ' '], .lit "up".toList, .optS ['s'], .wb],
   [.wb, .lit "probable".toList, .ws0, .lit "xi".toList, .wb],
   [.wb, .lit "team news".toList, .wb],
   [.wb, .lit "how ".toList, .dotStar, .lit " could line up".toList, .wb],
   [.wb, .lit "three ways ".toList, .dotStar, .lit " could line up".toList, .wb],
   [.wb, .lit "talking points".toList, .wb],
   [.wb, .lit "keys to".toList, .wb],
   [.wb, .lit "what to expect".toList, .wb]]

def POST_PATTERNS : List (List RTok) :=
  [[.wb, .lit "match report".toList, .wb],
   [.wb, .lit "player ratings".toList, .wb],
   [.wb, .lit "post".toList, .optCh ['-', ' '], .lit "match".toList, .wb],
   [.wb, .lit "what we learned".toList, .wb],
   [.wb, .lit "takeaways".toList, .wb],
   [.wb, .lit "reaction".toList, .wb],
   [.wb, .lit "analysis".toList, .wb]]

def LIVE_PATTERNS : List (List RTok) :=
  [[.wb, .lit "live blog".toList, .wb],
   [.wb, .lit "liveblog".toList, .wb],
   [.wb, .lit "as it happened".toList, .wb],
   [.lit "/live".toList, .chCls ['-', '/']]]

def HOWTO_PATTERNS : List (List RTok) :=
  [[.wb, .lit "how to watch".toList, .wb],
   [.wb, .lit "what channel".toList, .wb],
   [.wb, .lit "tv channel".toList, .wb],
   [.wb, .lit "live stream".toList, .wb],
   [.wb, .lit "stream".toList, .wb]]

def GALLERY_PATTERNS : List (List RTok) :=
  [[.wb, .lit "gallery".toList, .wb],
   [.wb, .lit "in pictures".toList, .wb],
   [.wb, .lit "photos:".toList, .wb],
   [.lit "/gallery/".toList]]

/-- `_classify_kind` from `policy.py`. -/
def classify_kind (it : Item) : Option String :=
  let s := (it.title.getD "") ++ " " ++ (it.summary.getD "") ++ " " ++ (it.url.getD "")
  if matchesAny LIVE_PATTERNS s then some "liveblog"
  else if matchesAny HOWTO_PATTERNS s then some "howto"
  else if matchesAny GALLERY_PATTERNS s then some "gallery"
  else if matchesAny POST_PATTERNS s then some "postmatch"
  else if matchesAny PRE_PATTERNS s then some "prematch"
  else none

/- ### Summary polish (`policy.py`, `_polish_summary`) -/

/-- `_polish_summary`, as a pure function on the record: the Python code
mutates `it["summary"]` in place; the result here is the mutated record. -/
def polishSummary (it : Item) : Item :=
  let summary := stripS (it.summary.getD "")
  let title := stripS (it.title.getD "")
  if 40 ≤ slen summary then it
  else
    let teaser :=
      if 140 < slen title then
        let cut := String.mk (title.toList.take 140)
        let cut2 := if containsSub cut " " then String.mk (cut.toList.take (rfindSpace cut)) else cut
        cut2 ++ "…"
      else title
    { it with summary := some teaser }

/- ### The per-item filter of `apply_policy_core` (`policy.py`) -/

/-- One item's pass/drop decision in the `for` loop of
`apply_policy_core`: the conjunction of the allow-list, women/U19,
official-press relevance, banned-kind and kind/provider gates, in
source order. -/
def keepB (excludeWomen : Bool) (it : Item) : Bool :=
  let title := it.title.getD ""
  let summary := it.summary.getD ""
  let prov := canonicalize_provider (it.provider.getD "")
  if !(ALLOWED_PROVIDERS.contains prov) then false
  else if excludeWomen && (is_women_or_u19 title || is_women_or_u19 summary) then false
  else if (prov == "DailyMail" || prov == "EveningStandard") && !(is_about_arsenal it) then false
  else
    let kind := classify_kind it
    if kind == some "liveblog" || kind == some "howto" || kind == some "gallery" then false
    else if kind == some "prematch" && prov != "EveningStandard" then false
    else if kind == some "postmatch" && prov != "PainInTheArsenal" then false
    else true

/-- The filter phase of `apply_policy_core`: kept items, each polished
(`_polish_summary` runs just before `filtered.append(it)`). -/
def filterStage (excludeWomen : Bool) (items : List Item) : List Item :=
  (items.filter (keepB excludeWomen)).map polishSummary

/- ### Exact-URL dedupe (`policy.py`, `_dedupe`) -/

/-- `(it.get("url") or "").strip().lower()`. -/
def dedupeNorm (it : Item) : String := lowerS (stripS (it.url.getD ""))

/-- The seen-set loop of `_dedupe`. -/
def dedupeAux (seen : List String) : List Item → List Item
  | [] => []
  | it :: rest =>
      let u := dedupeNorm it
      if u = "" ∨ u ∈ seen then dedupeAux seen rest
      else it :: dedupeAux (u :: seen) rest

/-- `_dedupe` from `policy.py`. -/
def dedupe (items : List Item) : List Item := dedupeAux [] items

/- ### Epoch-second model of the UTC datetimes the pipeline handles -/

def isLeapYear (y : ℕ) : Bool := (y % 4 == 0 && y % 100 != 0) || y % 400 == 0

def monthDays (y m : ℕ) : ℕ :=
  [31, if isLeapYear y then 29 else 28, 31, 30, 31, 30, 31, 31, 30, 31, 30, 31].getD (m - 1) 0

def daysBeforeMonth (y m : ℕ) : ℕ :=
  ((List.range (m - 1)).map (fun i => monthDays y (i + 1))).sum

def leapsBefore (y : ℕ) : ℕ := (y - 1) / 4 - (y - 1) / 100 + (y - 1) / 400

/-- Days since 1970-01-01 of a civil date (year ≥ 1970). -/
def daysFromCivil (y m d : ℕ) : ℕ :=
  365 * (y - 1970) + (leapsBefore y - leapsBefore 1970) + daysBeforeMonth y m + (d - 1)

/-- Civil date of a day count since 1970-01-01
(the standard era-based conversion). -/
def civilFromDays (days : ℕ) : ℕ × ℕ × ℕ :=
  let z := days + 719468
  let era := z / 146097
  let doe := z % 146097
  let yoe := (doe - doe / 1460 + doe / 36524 - doe / 146097) / 365
  let y := yoe + era * 400
  let doy := doe - (365 * yoe + yoe / 4 - yoe / 100)
  let mp := (5 * doy + 2) / 153
  let d := doy - (153 * mp + 2) / 5 + 1
  let m := if mp < 10 then mp + 3 else mp - 9
  (if m ≤ 2 then y + 1 else y, m, d)

def pad2 (n : ℕ) : String := if n < 10 then "0" ++ toString n else toString n

def pad4 (n : ℕ) : String :=
  if n < 10 then "000" ++ toString n
  else if n < 100 then "00" ++ toString n
  else if n < 1000 then "0" ++ toString n
  else toString n

/-- `strftime("%Y-%m-%d")` of a day count. -/
def formatDate (days : ℕ) : String :=
  let ymd := civilFromDays days
  pad4 ymd.1 ++ "-" ++ pad2 ymd.2.1 ++ "-" ++ pad2 ymd.2.2

/-- `strftime("%Y-%m-%dT%H:%M")` of epoch seconds. -/
def formatMinute (e : ℕ) : String :=
  formatDate (e / 86400) ++ "T" ++ pad2 (e % 86400 / 3600) ++ ":" ++ pad2 (e % 3600 / 60)

/-- `_to_utc_iso`: `isoformat()` with `+00:00` rewritten to `Z`
(microseconds are always zero where this is called). -/
def formatIsoZ (e : ℕ) : String := formatMinute e ++ ":" ++ pad2 (e % 60) ++ "Z"

def readDigit (c : Char) : Option ℕ := if c.isDigit then some (c.toNat - 48) else none

/-- Read exactly `n` digits. -/
def readNatN : ℕ → List Char → Option (ℕ × List Char)
  | 0, cs => some (0, cs)
  | _ + 1, [] => none
  | n + 1, c :: cs =>
      match readDigit c with
      | none => none
      | some d =>
          match readNatN n cs with
          | none => none
          | some r => some (d * 10 ^ n + r.1, r.2)

def expectChar (c : Char) : List Char → Option (List Char)
  | [] => none
  | x :: xs => if x == c then some xs else none

/-- Modelled from the standard library: the ISO-8601 timestamps accepted
by `dateutil.parser.parse` / `datetime.fromisoformat` as produced by the
feeds and by `_to_utc_iso` — `YYYY-MM-DDTHH:MM:SS[.ffffff][Z|+HH:MM|-HH:MM]`
with a `T` or space separator and year ≥ 1970 — mapped to UTC epoch
seconds; anything else (in particular garbage strings) is `none`,
matching the `except` branch of `_parse_dt`. -/
def parseIso (s : String) : Option ℕ :=
  match readNatN 4 s.toList with
  | none => none
  | some (y, r1) =>
  match expectChar '-' r1 with
  | none => none
  | some r2 =>
  match readNatN 2 r2 with
  | none => none
  | some (mo, r3) =>
  match expectChar '-' r3 with
  | none => none
  | some r4 =>
  match readNatN 2 r4 with
  | none => none
  | some (d, r5) =>
  match r5 with
  | [] => none
  | sep :: r6 =>
  if !(sep == 'T' || sep == ' ') then none
  else
  match readNatN 2 r6 with
  | none => none
  | some (h, r7) =>
  match expectChar ':' r7 with
  | none => none
  | some r8 =>
  match readNatN 2 r8 with
  | none => none
  | some (mi, r9) =>
  match expectChar ':' r9 with
  | none => none
  | some r10 =>
  match readNatN 2 r10 with
  | none => none
  | some (sec, r11) =>
  let r12 :=
    match r11 with
    | '.' :: rest =>
        let frac := rest.takeWhile Char.isDigit
        if frac.length = 0 then none else some (rest.drop frac.length)
    | rest => some rest
  match r12 with
  | none => none
  | some tz =>
  if !(1970 ≤ y ∧ 1 ≤ mo ∧ mo ≤ 12 ∧ 1 ≤ d ∧ d ≤ monthDays y mo ∧ h < 24 ∧ mi < 60 ∧ sec < 60) then
    none
  else
    let base := daysFromCivil y mo d * 86400 + h * 3600 + mi * 60 + sec
    match tz with
    | [] => some base
    | ['Z'] => some base
    | c :: rest =>
        if c == '+' ∨ c == '-' then
          match readNatN 2 rest with
          | none => none
          | some (oh, q1) =>
          match expectChar ':' q1 with
          | none => none
          | some q2 =>
          match readNatN 2 q2 with
          | none => none
          | some (om, q3) =>
          if q3 ≠ [] ∨ ¬(oh < 24 ∧ om < 60) then none
          else if c == '+' then some (base - (oh * 3600 + om * 60))
          else some (base + (oh * 3600 + om * 60))
        else none

/-- `policy.py`'s `_parse_dt` (returns `None` on failure). -/
def parse_dt (s : Option String) : Option ℕ :=
  match s with
  | none => none
  | some str => parseIso str

/-- `policy_near_dupes.py`'s `_parse_dt` (falls back to the epoch). -/
def parseDtD (s : String) : ℕ := (parseIso s).getD 0

/-- `_iso` from `policy.py`: `dt or "1970-01-01T00:00:00Z"`. -/
def isoD (dt : Option String) : String :=
  match dt with
  | none => "1970-01-01T00:00:00Z"
  | some s => if s = "" then "1970-01-01T00:00:00Z" else s

/- ### Near-duplicate collapse (`policy_near_dupes.py`) -/

def PREVIEW_KEYS : List String :=
  ["preview", "pre-match", "prematch", "match preview",
   "predicted", "prediction", "predicted xi", "predicted lineup",
   "lineup", "line up", "line-up", "lineups", "line-ups",
   "xi", "starting xi", "team news", "confirmed xi",
   "how to watch", "tv channel", "kick-off", "kick off", "odds"]

def REPORT_KEYS : List String :=
  ["report", "match report", "full-time", "full time",
   "player ratings", "ratings", "reaction", "post-match", "post match",
   "talking points", "what we learned", "five things", "5 things", "3 things"]

def KEEP_PRIORITY : List (String × ℕ) :=
  [("ArsenalOfficial", 100), ("EveningStandard", 90), ("SkySports", 85),
   ("DailyMail", 80), ("Arseblog", 50), ("PainInTheArsenal", 40),
   ("ArsenalInsider", 30)]

def NORMALIZE_DROP_WORDS : List String :=
  ["arsenal", "gunners", "fc", "afc", "ucl", "champions league",
   "premier league", "pl", "vs", "v", "versus",
   "match preview", "preview", "pre match", "pre-match", "prediction",
   "predicted", "predicted xi", "predicted lineup", "team news",
   "lineup", "line up", "line-up", "lineups", "line-ups", "xi",
   "starting xi", "confirmed xi", "how to watch", "tv channel",
   "kick-off", "kick off", "odds",
   "match report", "report", "full time", "full-time",
   "player ratings", "ratings", "reaction", "post match", "post-match",
   "talking points", "what we learned", "five things", "5 things", "3 things"]

/-- `re.sub(r"[^\w\s]", " ", t)`. -/
def stripPunct (s : String) : String :=
  String.mk (s.toList.map (fun c => if isWordChar c || isPyWs c then c else ' '))

/-- One match of `\b\d{1,2}[:\-]\d{1,2}\b` starting at the head of `l`
(with `prev` the preceding char): returns the consumed length.
Greedy with backtracking on the digit counts. -/
def scoreMatchAt (prev : Option Char) (l : List Char) : Option ℕ :=
  if !(bnd prev l.head?) then none
  else
    ([2, 1].map (fun n1 =>
      match readNatN n1 l with
      | none => none
      | some (_, r1) =>
        match r1 with
        | [] => none
        | sep :: r2 =>
          if !(sep == ':' || sep == '-') then none
          else
            ([2, 1].map (fun n2 =>
              match readNatN n2 r2 with
              | none => none
              | some (_, r3) =>
                if bnd (some '0') r3.head? then some (n1 + 1 + n2) else none)).reduceOption.head?)).reduceOption.head?

/-- One match of `\b\d{4}\b` at the head of `l`. -/
def yearMatchAt (prev : Option Char) (l : List Char) : Option ℕ :=
  if !(bnd prev l.head?) then none
  else
    match readNatN 4 l with
    | none => none
    | some (_, r) => if bnd (some '0') r.head? then some 4 else none

/-- `re.sub` driver: replace each non-overlapping leftmost match found by
`matchAt` with a single space; `fuel` is the text length. -/
def subPatAux (matchAt : Option Char → List Char → Option ℕ) :
    ℕ → Option Char → List Char → List Char
  | 0, _, text => text
  | _ + 1, _, [] => []
  | fuel + 1, prev, c :: rest =>
      match matchAt prev (c :: rest) with
      | some k =>
          if k = 0 then c :: subPatAux matchAt fuel (some c) rest
          else ' ' :: subPatAux matchAt fuel (((c :: rest).take k).getLast?) ((c :: rest).drop k)
      | none => c :: subPatAux matchAt fuel (some c) rest

/-- `_normalized_title_key` from `policy_near_dupes.py`. -/
def normalized_title_key (title : String) : String :=
  let t := lowerS title
  let t := stripPunct t
  let words := (splitWs t).filter (fun w => !(NORMALIZE_DROP_WORDS.contains w))
  let t := joinSep " " words
  let t := String.mk (subPatAux scoreMatchAt t.toList.length none t.toList)
  let t := String.mk (subPatAux yearMatchAt t.toList.length none t.toList)
  let t := stripS (collapseWs t)
  if 80 < slen t then String.mk (t.toList.take 80) else t

def TEAM_ALIASES : List (String × String) :=
  [("athletic club", "ATH"), ("athletic bilbao", "ATH"), ("ath bilbao", "ATH"),
   ("bilbao", "ATH"),
   ("nottingham forest", "NFO"), ("forest", "NFO"),
   ("manchester city", "MCI"), ("man city", "MCI"), ("city", "MCI"),
   ("manchester united", "MUN"), ("man united", "MUN"), ("man utd", "MUN"),
   ("chelsea", "CHE"), ("tottenham", "TOT"), ("spurs", "TOT"),
   ("liverpool", "LIV"), ("newcastle", "NEW"), ("west ham", "WHU")]

/-- Is the char in the class `[a-z\s]`? -/
def isOppChar (c : Char) : Bool := ('a' ≤ c ∧ c ≤ 'z' : Bool) || isPyWs c

/-- Greedy `([a-z\s]+)\b` at the head of `l`: longest non-empty run of
class chars whose end position is a word boundary. -/
def greedyOppGroup (l : List Char) : Option (List Char) :=
  let run := l.takeWhile isOppChar
  ((List.range run.length).map (fun j =>
     let k := run.length - j
     let g := l.take k
     if bnd g.getLast? ((l.drop k).head?) then some g else none)).reduceOption.head?

/-- Continuation of pattern 1 after `arsenal`: `\s+(?:vs|v|versus|at|@)\s+([a-z\s]+)\b`
with regex backtracking order (greedy `\s+`, alternation in source
order). -/
def pat1After (rest : List Char) : Option (List Char) :=
  let run := (rest.takeWhile isPyWs).length
  ((List.range run).map (fun j =>
     let s := run - j
     let afterWs := rest.drop s
     (["vs", "v", "versus", "at", "@"].map (fun kw =>
        if kw.toList.isPrefixOf afterWs then
          let afterKw := afterWs.drop kw.length
          let run2 := (afterKw.takeWhile isPyWs).length
          ((List.range run2).map (fun j2 =>
             let s2 := run2 - j2
             greedyOppGroup (afterKw.drop s2))).reduceOption.head?
        else none)).reduceOption.head?)).reduceOption.head?

/-- `re.search` for pattern 1, `\barsenal\s+(?:vs|v|versus|at|@)\s+([a-z\s]+)\b`:
leftmost occurrence, returning the captured group. -/
def pat1Search (t : List Char) : Option (List Char) :=
  ((List.range (t.length + 1)).map (fun i =>
     let prev := (t.take i).getLast?
     let here := t.drop i
     if bnd prev here.head? ∧ "arsenal".toList.isPrefixOf here then
       pat1After (here.drop 7)
     else none)).reduceOption.head?

/-- Continuation of pattern 2 from a candidate group: after the group,
`\s+(?:vs|v|versus)\s+arsenal\b`. -/
def pat2After (rest : List Char) : Bool :=
  let run := (rest.takeWhile isPyWs).length
  (List.range run).any (fun j =>
    let s := run - j
    let afterWs := rest.drop s
    (["vs", "v", "versus"]).any (fun kw =>
      kw.toList.isPrefixOf afterWs ∧
        (let afterKw := afterWs.drop kw.length
         let run2 := (afterKw.takeWhile isPyWs).length
         (List.range run2).any (fun j2 =>
           let s2 := run2 - j2
           let tail := afterKw.drop s2
           "arsenal".toList.isPrefixOf tail ∧ bnd (some 'l') ((tail.drop 7).head?)))))

/-- `re.search` for pattern 2, `\b([a-z\s]+)\s+(?:vs|v|versus)\s+arsenal\b`:
leftmost start, then the longest group that lets the rest match. -/
def pat2Search (t : List Char) : Option (List Char) :=
  ((List.range (t.length + 1)).map (fun i =>
     let prev := (t.take i).getLast?
     let here := t.drop i
     if bnd prev here.head? then
       (let run := here.takeWhile isOppChar
        ((List.range run.length).map (fun j =>
           let k := run.length - j
           if pat2After (here.drop k) then some (here.take k) else none)).reduceOption.head?)
     else none)).reduceOption.head?

/-- Turn a raw captured group into the opponent code
(the tail of `_normalize_opponent` after a pattern matched). -/
def finishOpp (raw0 : List Char) : Option String :=
  let raw := collapseWs (stripS (String.mk raw0))
  match TEAM_ALIASES.lookup raw with
  | some code => some code
  | none =>
      let best := TEAM_ALIASES.foldl
        (fun acc kv =>
          if containsSub raw kv.1 then
            match acc with
            | none => some kv
            | some b => if slen b.1 < slen kv.1 then some kv else acc
          else acc) none
      match best with
      | some b => some b.2
      | none =>
          let tokens := splitWs raw
          if tokens ≠ [] then some ("UNK:" ++ joinSep "-" (tokens.take 2)) else none

/-- `_normalize_opponent` from `policy_near_dupes.py`. -/
def normalize_opponent (text : String) : Option String :=
  let t := stripPunct (lowerS text)
  match pat1Search t.toList with
  | some raw => finishOpp raw
  | none =>
      match pat2Search t.toList with
      | some raw => finishOpp raw
      | none => none

/-- `_classify` from `policy_near_dupes.py` (substring keys over the
lowercased title). -/
def nd_classify (it : Item) : String :=
  let t := lowerS (it.title.getD "")
  if PREVIEW_KEYS.any (fun k => containsSub t k) then "preview"
  else if REPORT_KEYS.any (fun k => containsSub t k) then "report"
  else "other"

/-- `_bucket_key` from `policy_near_dupes.py`.  The day bucket subtracts
the time of day from the parsed datetime and takes `%Y-%m-%d`, which on
epoch seconds is the date of `e / 86400`. -/
def bucket_key (it : Item) : String × String :=
  let title := it.title.getD ""
  let e := parseDtD (it.publishedUtc.getD "")
  let day := formatDate (e / 86400)
  let cls := nd_classify it
  if cls = "preview" ∨ cls = "report" then
    let text := title ++ " " ++ (it.summary.getD "") ++ " " ++ (it.url.getD "")
    match normalize_opponent text with
    | some opp => (cls ++ ":" ++ opp, day)
    | none => (normalized_title_key title, day)
  else (normalized_title_key title, day)

/-- `_provider_priority`. -/
def provider_priority (p : String) : ℕ := (KEEP_PRIORITY.lookup p).getD 10

/-- Insertion-ordered grouping, the behaviour of
`clusters.setdefault(k, []).append(it)` over a Python dict: keys appear
in first-occurrence order, each group holds all items with that key in
input order.  `fuel` bounds the recursion; the list length always
suffices since each step consumes at least the head. -/
def groupByKeyAux (f : Item → String × String) :
    ℕ → List Item → List ((String × String) × List Item)
  | 0, _ => []
  | _ + 1, [] => []
  | fuel + 1, x :: xs =>
      (f x, x :: xs.filter (fun y => decide (f y = f x)))
        :: groupByKeyAux f fuel (xs.filter (fun y => !decide (f y = f x)))

def groupByKey (f : Item → String × String) (l : List Item) :
    List ((String × String) × List Item) :=
  groupByKeyAux f l.length l

/-- The cluster-selection score: `(priority, has image, datetime, -len(title))`
compared lexicographically; this is the strict `>` used by Python `max`. -/
def collScoreGT (a b : Item) : Bool :=
  let pa := provider_priority (a.provider.getD "")
  let pb := provider_priority (b.provider.getD "")
  let ia : ℕ := if (a.imageUrl.getD "") ≠ "" then 1 else 0
  let ib : ℕ := if (b.imageUrl.getD "") ≠ "" then 1 else 0
  let da := parseDtD (a.publishedUtc.getD "")
  let db := parseDtD (b.publishedUtc.getD "")
  let la := slen (a.title.getD "")
  let lb := slen (b.title.getD "")
  if pa ≠ pb then decide (pb < pa)
  else if ia ≠ ib then decide (ib < ia)
  else if da ≠ db then decide (db < da)
  else decide (la < lb)

/-- Python `max(x :: xs, key=score)`: first element with the maximal
score (later elements replace only on strictly greater). -/
def pickMax (x : Item) (xs : List Item) : Item :=
  xs.foldl (fun acc y => if collScoreGT y acc then y else acc) x

/-- `max(candidates, key=score) if candidates else max(group, key=score)`
where `candidates` filters the cluster for the preferred provider. -/
def pickPreferred (g : List Item) (pref : String) (x : Item) (xs : List Item) : Item :=
  match g.filter (fun i => decide (i.provider = some pref)) with
  | [] => pickMax x xs
  | c :: cs => pickMax c cs

/-- Survivor of one cluster (the body of the `for _, group in clusters`
loop of `collapse_near_dupes`): singleton groups pass through; larger
groups pick the majority class's preferred-provider candidate if
present, else the score maximum. -/
def surviveGroup (g : List Item) : Item :=
  match g with
  | [] => dummyItem
  | x :: xs =>
      if xs = [] then x
      else
        let cp := g.countP (fun i => nd_classify i == "preview")
        let cr := g.countP (fun i => nd_classify i == "report")
        let co := g.countP (fun i => nd_classify i == "other")
        let cls := if cr ≤ cp ∧ co ≤ cp then "preview" else if co ≤ cr then "report" else "other"
        if cls = "preview" then pickPreferred g "EveningStandard" x xs
        else if cls = "report" then pickPreferred g "ArsenalOfficial" x xs
        else pickMax x xs

/-- `collapse_near_dupes` from `policy_near_dupes.py`. -/
def collapse_near_dupes (items : List Item) : List Item :=
  if items.isEmpty then items
  else (groupByKey bucket_key items).map (fun kg => surviveGroup kg.2)

/- ### SHA-1 (model of `hashlib.sha1`, needed by the declump offset) -/

def M32 : ℕ := 4294967296

def rotl (x k : ℕ) : ℕ := (((x <<< k) % M32) ||| (x >>> (32 - k)))

/-- UTF-8 encoding of one character. -/
def utf8Char (c : Char) : List ℕ :=
  let n := c.toNat
  if n < 128 then [n]
  else if n < 2048 then [192 + n / 64, 128 + n % 64]
  else if n < 65536 then [224 + n / 4096, 128 + n / 64 % 64, 128 + n % 64]
  else [240 + n / 262144, 128 + n / 4096 % 64, 128 + n / 64 % 64, 128 + n % 64]

/-- `s.encode("utf-8")` as a byte list. -/
def utf8Bytes (s : String) : List ℕ := (s.toList.map utf8Char).flatten

/-- Big-endian 8-byte encoding. -/
def be8 (n : ℕ) : List ℕ :=
  [n / 2 ^ 56 % 256, n / 2 ^ 48 % 256, n / 2 ^ 40 % 256, n / 2 ^ 32 % 256,
   n / 2 ^ 24 % 256, n / 2 ^ 16 % 256, n / 2 ^ 8 % 256, n % 256]

/-- SHA-1 message padding. -/
def sha1Pad (msg : List ℕ) : List ℕ :=
  let len := msg.length
  let k := (119 - len % 64) % 64
  msg ++ [128] ++ List.replicate k 0 ++ be8 (len * 8)

/-- Split into 64-byte blocks (`fuel` bounds the recursion; the byte
count always suffices). -/
def toBlocksAux : ℕ → List ℕ → List (List ℕ)
  | 0, _ => []
  | fuel + 1, l => if l.isEmpty then [] else l.take 64 :: toBlocksAux fuel (l.drop 64)

def toBlocks (l : List ℕ) : List (List ℕ) := toBlocksAux l.length l

def be4word (a b c d : ℕ) : ℕ := a * 16777216 + b * 65536 + c * 256 + d

def wordsOfBlock (b : List ℕ) : Array ℕ :=
  ((List.range 16).map (fun i =>
    be4word (b.getD (4 * i) 0) (b.getD (4 * i + 1) 0) (b.getD (4 * i + 2) 0) (b.getD (4 * i + 3) 0))).toArray

/-- Extend 16 words to 80. -/
def sha1Extend (w : Array ℕ) : Array ℕ :=
  (List.range 64).foldl
    (fun arr _ =>
      arr.push (rotl ((arr.getD (arr.size - 3) 0) ^^^ (arr.getD (arr.size - 8) 0)
        ^^^ (arr.getD (arr.size - 14) 0) ^^^ (arr.getD (arr.size - 16) 0)) 1)) w

/-- The 80-round compression of one block. -/
def sha1Block (w : Array ℕ) (h : ℕ × ℕ × ℕ × ℕ × ℕ) : ℕ × ℕ × ℕ × ℕ × ℕ :=
  let st := (List.range 80).foldl
    (fun (st : ℕ × ℕ × ℕ × ℕ × ℕ) i =>
      let a := st.1
      let b := st.2.1
      let c := st.2.2.1
      let d := st.2.2.2.1
      let e := st.2.2.2.2
      let fk : ℕ × ℕ :=
        if i < 20 then ((b &&& c) ||| ((4294967295 ^^^ b) &&& d), 1518500249)
        else if i < 40 then (b ^^^ c ^^^ d, 1859775393)
        else if i < 60 then ((b &&& c) ||| (b &&& d) ||| (c &&& d), 2400959708)
        else (b ^^^ c ^^^ d, 3395469782)
      let tmp := (rotl a 5 + fk.1 + e + fk.2 + w.getD i 0) % M32
      (tmp, a, rotl b 30, c, d))
    (h.1, h.2.1, h.2.2.1, h.2.2.2.1, h.2.2.2.2)
  ((h.1 + st.1) % M32, (h.2.1 + st.2.1) % M32, (h.2.2.1 + st.2.2.1) % M32,
   (h.2.2.2.1 + st.2.2.2.1) % M32, (h.2.2.2.2 + st.2.2.2.2) % M32)

/-- First byte of the SHA-1 digest of a byte string, which is
`int(hexdigest()[:2], 16)`. -/
def sha1FirstByte (msg : List ℕ) : ℕ :=
  let hs := (toBlocks (sha1Pad msg)).foldl (fun h b => sha1Block (sha1Extend (wordsOfBlock b)) h)
    (1732584193, 4023233417, 2562383102, 271733878, 3285377520)
  hs.1 / 16777216

/- ### Declump (`policy.py`, `_declump_same_minute`) -/

/-- The provider-and-minute bucket key of an item (`None` when the
timestamp does not parse, in which case the item is skipped). -/
def minuteKeyOf (it : Item) : Option String :=
  match parseIso (it.publishedUtc.getD "") with
  | none => none
  | some e => some (canonicalize_provider (it.provider.getD "") ++ "|" ++ formatMinute e)

/-- How many items of `m` fall in the bucket of the given raw provider
and epoch-second timestamp (an item counts itself). -/
def minuteCount (m : List Item) (prov : String) (e : ℕ) : ℕ :=
  m.countP (fun y => minuteKeyOf y == some (canonicalize_provider prov ++ "|" ++ formatMinute e))

/-- The staggered timestamp the declump writes: start of the minute plus
`int(sha1(url).hexdigest()[:2], 16) % 30` seconds. -/
def staggeredPub (e : ℕ) (url : String) : String :=
  formatIsoZ (e - e % 60 + sha1FirstByte (utf8Bytes url) % 30)

/-- The rewrite `_declump_same_minute` applies to one item of the list
`m`: items in a bucket of two or more get their timestamp replaced by
the start of the minute plus a SHA-1-derived 0–29 second offset.  The
Python code mutates in place after precomputing the buckets; since each
item is rewritten independently of the others' rewrites, this equals a
map whose bucket-size test counts over the original list. -/
def declumpItem (m : List Item) (it : Item) : Item :=
  match parseIso (it.publishedUtc.getD "") with
  | none => it
  | some e =>
      if 2 ≤ minuteCount m (it.provider.getD "") e then
        { it with publishedUtc := some (staggeredPub e (it.url.getD "")) }
      else it

/-- `_declump_same_minute` as a list transformation. -/
def declump (m : List Item) : List Item := m.map (declumpItem m)

/- ### Scoring and the deterministic sort (`policy.py`) -/

/-- `_score` from `policy.py`. -/
def score (it : Item) : ℕ :=
  let prov := canonicalize_provider (it.provider.getD "")
  let officialBoost : ℕ := if (["EveningStandard", "DailyMail"] : List String).contains prov then 10 else 0
  let hasImg : ℕ := if (it.imageUrl.getD "") ≠ "" then 1 else 0
  officialBoost * 100 + hasImg

/-- Code points of a string; Python compares strings by code point. -/
def strCodes (s : String) : List ℕ := s.toList.map Char.toNat

/-- Python `<` on strings as code-point lists. -/
def listNatLtB : List ℕ → List ℕ → Bool
  | [], [] => false
  | [], _ :: _ => true
  | _ :: _, [] => false
  | a :: as, b :: bs => if a < b then true else if b < a then false else listNatLtB as bs

/-- The sort key `_tie_key`:
`(_iso(publishedUtc), _score(x), title.lower(), (id or url or "").lower())`,
with strings as code-point lists. -/
def tieKey (x : Item) : List ℕ × ℕ × List ℕ × List ℕ :=
  (strCodes (isoD x.publishedUtc), score x,
   strCodes (lowerS (x.title.getD "")),
   strCodes (lowerS (let a := x.id.getD ""; if a = "" then x.url.getD "" else a)))

/-- Lexicographic `<` on pairs from strict `<` tests on the parts. -/
def pairLtB (ltA : α → α → Bool) (ltB : β → β → Bool) (x y : α × β) : Bool :=
  if ltA x.1 y.1 then true else if ltA y.1 x.1 then false else ltB x.2 y.2

/-- Python `<` on naturals as a Bool. -/
def natLtB (a b : ℕ) : Bool := decide (a < b)

/-- Python `<` on the 4-tuples produced by `_tie_key`. -/
def tkLtB : List ℕ × ℕ × List ℕ × List ℕ → List ℕ × ℕ × List ℕ × List ℕ → Bool :=
  pairLtB listNatLtB (pairLtB natLtB (pairLtB listNatLtB listNatLtB))

/-- The ordering used for `filtered.sort(key=_tie_key, reverse=True)`:
`a` may precede `b` iff `a`'s key is not smaller than `b`'s.  A stable
sort with this relation is exactly Python's stable descending sort. -/
def tieRel (a b : Item) : Prop := tkLtB (tieKey a) (tieKey b) = false

instance : DecidableRel tieRel := fun _ _ => instDecidableEqBool _ _

/-- `filtered.sort(key=_tie_key, reverse=True)` (stable). -/
def sortDesc (m : List Item) : List Item := List.insertionSort tieRel m

/-- The list on which the declump stage runs: filter (with polish),
exact dedupe, near-duplicate collapse. -/
def coreMid (excludeWomen : Bool) (items : List Item) : List Item :=
  collapse_near_dupes (dedupe (filterStage excludeWomen items))

/-- `apply_policy_core` from `policy.py`: filter (with summary polish),
exact-URL dedupe, near-duplicate collapse, declump, stable sort. -/
def apply_policy_core (items : List Item) (teamCode : String) (excludeWomen : Bool) : List Item :=
  let _ := teamCode
  sortDesc (declump (coreMid excludeWomen items))

/- ### Quality filter and pagination phase of `get_news` (`main.py`) -/

/-- `_to_dt` from `main.py`: `fromisoformat` after `Z → +00:00`, epoch on
failure or absence, as epoch seconds. -/
def toDtMain (isoStr : Option String) : ℕ :=
  match isoStr with
  | none => 0
  | some s => if s = "" then 0 else (parseIso (replaceS s "Z" "+00:00")).getD 0

def WOMEN_KEYS_MAIN : List String :=
  ["women", "womens", "women’s", "women's", "awfc", "wfc", "fa wsl", "wsl",
   "barclays women's", "women's super league",
   "/women/", "/wsl/", "/awfc/", "/women-", "/womens-", "women-", "womens-",
   "-women/", "-wsl/", "-awfc/",
   "arsenal women", "arsenal-women", "arsenalwomen", "mariona", "miedema",
   "mead", "eidevall", "katie mccabe"]

/-- `_looks_like_womens` from `main.py`. -/
def looksLikeWomens (a : Item) : Bool :=
  let t := lowerS (a.title.getD "")
  let s := lowerS (a.summary.getD "")
  let u := lowerS (a.url.getD "")
  WOMEN_KEYS_MAIN.any (fun k => containsSub t k || containsSub s k || containsSub u k)

def ALLOWED_OFFICIAL : List String :=
  ["ArsenalOfficial", "SkySports", "TheStandard", "TheTimes", "DailyMail"]

def ALLOWED_FAN : List String := ["Arseblog", "PainInTheArsenal", "ArsenalInsider"]

def dashWs : List Char := '-' :: wsChars

def HIGHLIGHT_PAT : List (List RTok) :=
  [[.wb, .lit "highlight".toList, .optS ['s'], .wb],
   [.wb, .lit "full".toList, .optCh dashWs, .lit "match".toList, .wb],
   [.wb, .lit "replay".toList, .wb],
   [.wb, .lit "gallery".toList, .wb],
   [.wb, .lit "photo".toList, .optS ['s'], .wb]]

def LIVE_PAT : List (List RTok) :=
  [[.wb, .lit "live".toList, .optS " blog".toList, .wb],
   [.wb, .lit "minute".toList, .optCh dashWs, .lit "by".toList, .optCh dashWs, .lit "minute".toList, .wb],
   [.wb, .lit "as it happened".toList, .wb],
   [.wb, .lit "recap".toList, .wb]]

def CELEB_PAT : List (List RTok) :=
  [[.wb, .lit "tvshowbiz".toList, .wb],
   [.wb, .lit "celebrity".toList, .wb],
   [.wb, .lit "showbiz".toList, .wb],
   [.wb, .lit "hollywood".toList, .wb],
   [.wb, .lit "love island".toList, .wb],
   [.wb, .lit "sudeikis".toList, .wb]]

def MATCH_REPORT_PAT : List (List RTok) :=
  [[.wb, .lit "match".toList, .ws0, .lit "report".toList, .wb],
   [.wb, .lit "player rating".toList, .optS ['s'], .wb]]

def PLAYER_RATINGS_PAT : List (List RTok) :=
  [[.wb, .lit "player rating".toList, .optS ['s'], .wb]]

def PREVIEW_PAT : List (List RTok) :=
  [[.wb, .lit "preview".toList, .wb],
   [.wb, .lit "prediction".toList, .wb],
   [.wb, .lit "line".toList, .optCh dashWs, .lit "up".toList, .optS ['s'], .wb]]

def PRESSER_PAT : List (List RTok) :=
  [[.wb, .lit "press".toList, .optCh wsChars, .lit "conference".toList, .wb],
   [.wb, .lit "every word".toList, .wb]]

def OPPONENTS : List String :=
  ["Nottingham Forest", "Forest", "Manchester City", "Man City",
   "Manchester United", "Man United", "Tottenham", "Spurs", "Chelsea",
   "Liverpool", "Brighton", "Newcastle", "Aston Villa", "West Ham",
   "Everton", "Brentford", "Bournemouth", "Wolves", "Fulham",
   "Crystal Palace", "Leicester", "Leeds", "Southampton", "Luton"]

/-- `re.search` over an alternation of literal names with `\b` on both
sides: leftmost position wins, and at equal positions the earliest
alternative in the list wins (regex alternation order).  Case handled by
lowercasing text and names. -/
def findFirstAlt (names : List String) (text : String) : Option String :=
  let t := (lowerS text).toList
  ((List.range (t.length + 1)).map (fun i =>
     let prev := (t.take i).getLast?
     let here := t.drop i
     (names.map (fun nm =>
        let n := (lowerS nm).toList
        if bnd prev here.head? ∧ n.isPrefixOf here
            ∧ bnd (n.getLast?) ((here.drop n.length).head?) then
          some (String.mk n)
        else none)).reduceOption.head?)).reduceOption.head?

/-- `_article_kind` from `main.py`. -/
def articleKind (a : Item) : String :=
  let t := (a.title.getD "") ++ " " ++ (a.summary.getD "")
  if matchesAny PLAYER_RATINGS_PAT t then "player_ratings"
  else if matchesAny MATCH_REPORT_PAT t then "match_report"
  else if matchesAny PREVIEW_PAT t then "preview"
  else if matchesAny PRESSER_PAT t then "presser"
  else "general"

/-- `_opponent_key` from `main.py` (`OPPONENT_PAT.search(...).group(1).lower()`). -/
def opponentKey (a : Item) : Option String :=
  findFirstAlt OPPONENTS ((a.title.getD "") ++ " " ++ (a.summary.getD ""))

/-- `_is_highlight_or_live` from `main.py`. -/
def isHighlightOrLive (a : Item) : Bool :=
  let t := (a.title.getD "") ++ " " ++ (a.summary.getD "") ++ " " ++ (a.url.getD "")
  matchesAny HIGHLIGHT_PAT t || matchesAny LIVE_PAT t

/-- `_is_celeb` from `main.py`. -/
def isCeleb (a : Item) : Bool :=
  let t := (a.title.getD "") ++ " " ++ (a.summary.getD "") ++ " " ++ (a.url.getD "")
  matchesAny CELEB_PAT t

/-- `_is_opponent_centric` from `main.py`. -/
def isOpponentCentric (a : Item) (teamAliases : List String) : Bool :=
  let t := (a.title.getD "") ++ " " ++ (a.summary.getD "")
  if teamAliases.any (fun al => reSearch [.wb, .lit (lowerS al).toList, .wb] (lowerS t).toList) then
    false
  else (findFirstAlt OPPONENTS t).isSome

def SOURCE_PRIORITY : List String :=
  ["ArsenalOfficial", "SkySports", "TheStandard", "TheTimes", "DailyMail",
   "Arseblog", "PainInTheArsenal", "ArsenalInsider"]

/-- `_source_rank` (`list.index`, or the length when absent). -/
def sourceRank (s : String) : ℕ := SOURCE_PRIORITY.findIdx (fun x => x == s)

/-- `_norm_url` from `main.py`. -/
def normUrlMain (u : String) : String :=
  let hp := urlHostPath u
  if hp.1 ≠ "" then lowerS hp.1 ++ rstripSlash hp.2 else u

/-- The hard-drop predicate `_drop` from `get_news`. -/
def dropMain (a : Item) (teamAliases : List String) : Bool :=
  if (a.title.getD "") = "" ∨ (a.url.getD "") = "" then true
  else if looksLikeWomens a then true
  else if isHighlightOrLive a then true
  else if isCeleb a then true
  else if isOpponentCentric a teamAliases then true
  else false

/-- Step 0 of the quality phase: allow-listed sources only. -/
def allowPhase (items : List Item) : List Item :=
  items.filter (fun a =>
    match a.source with
    | some s => ALLOWED_OFFICIAL.contains s || ALLOWED_FAN.contains s
    | none => false)

/-- Step 2: de-dup by `_norm_url` (first occurrence wins, falsy keys skipped). -/
def dedupMainAux (seen : List String) : List Item → List Item
  | [] => []
  | it :: rest =>
      let key := normUrlMain (it.url.getD "")
      if key = "" ∨ key ∈ seen then dedupMainAux seen rest
      else it :: dedupMainAux (key :: seen) rest

def dedupMain (items : List Item) : List Item := dedupMainAux [] items

/-- `_better` from `get_news`: higher source priority, then newer time. -/
def betterMain (a b : Item) : Bool :=
  let ra := sourceRank (a.source.getD "")
  let rb := sourceRank (b.source.getD "")
  if ra ≠ rb then decide (ra < rb) else decide (toDtMain b.publishedUtc < toDtMain a.publishedUtc)

/-- Step 3: per-match de-duplication — one item per `(opponent, kind)`
for report/preview/ratings kinds, replacing in place when a better item
arrives. -/
def matchDedupStep (st : List Item × List ((String × String) × ℕ)) (a : Item) :
    List Item × List ((String × String) × ℕ) :=
  let kind := articleKind a
  if kind = "match_report" ∨ kind = "preview" ∨ kind = "player_ratings" then
    let opp := (opponentKey a).getD "_none_"
    match st.2.lookup (opp, kind) with
    | some idx =>
        if betterMain a (st.1.getD idx dummyItem) then (st.1.set idx a, st.2)
        else st
    | none => (st.1 ++ [a], st.2 ++ [((opp, kind), st.1.length)])
  else (st.1 ++ [a], st.2)

def matchDedup (items : List Item) : List Item :=
  (items.foldl matchDedupStep ([], [])).1

/-- Steps 0–3 of the quality phase: the filtered, deduplicated,
match-collapsed corpus (the list `selected` in `get_news`). -/
def selectedCorpus (items : List Item) (teamAliases : List String) : List Item :=
  matchDedup (dedupMain ((allowPhase items).filter (fun a => !(dropMain a teamAliases))))

/-- Step 4: per-provider cap, `max(6, pageSize // 4)` per source. -/
def capPhase (sel : List Item) (cap : ℕ) : List Item :=
  (sel.foldl (fun (st : List Item × List (String × ℕ)) it =>
    let s0 := it.source.getD ""
    let src := if s0 = "" then "unknown" else s0
    if cap ≤ (st.2.lookup src).getD 0 then st
    else (st.1 ++ [it], (src, (st.2.lookup src).getD 0 + 1) :: st.2)) ([], [])).1

/-- The sort key of step 5:
`(_to_dt(publishedUtc), -1000 + (-_source_rank(source)), id or "")`. -/
def newsKey (x : Item) : ℕ × ℤ × List ℕ :=
  (toDtMain x.publishedUtc, -1000 + (-(sourceRank (x.source.getD "") : ℤ)),
   strCodes (x.id.getD ""))

/-- Python `<` on the step-5 sort keys. -/
def nkLtB (a b : ℕ × ℤ × List ℕ) : Bool :=
  if a.1 ≠ b.1 then decide (a.1 < b.1)
  else if a.2.1 ≠ b.2.1 then decide (a.2.1 < b.2.1)
  else listNatLtB a.2.2 b.2.2

/-- Stable descending sort of step 5. -/
def newsRel (a b : Item) : Prop := nkLtB (newsKey a) (newsKey b) = false

instance : DecidableRel newsRel := fun _ _ => instDecidableEqBool _ _

def sortNews (m : List Item) : List Item := List.insertionSort newsRel m

/-- The paged payload `get_news` serializes. -/
structure NewsPayload where
  items : List Item
  page : ℕ
  pageSize : ℕ
  total : ℕ
deriving DecidableEq, Repr

/-- The quality-filter, dedup, cap, sort and pagination phase of
`get_news` (`main.py` lines 263–349), from the fetched records to the
payload. -/
def get_news_core (items : List Item) (teamAliases : List String) (page pageSize : ℕ) :
    NewsPayload :=
  let sel := selectedCorpus items teamAliases
  let cap := max 6 (pageSize / 4)
  let capped := capPhase sel cap
  let sortedC := sortNews capped
  let total := sortedC.length
  let start := (page - 1) * pageSize
  { items := (sortedC.drop start).take pageSize, page := page, pageSize := pageSize,
    total := total }

/- ### Per-page caps (`policy.py`, `_fill_with_limit` / `page_with_caps`) -/

def PROVIDER_CAPS_DEFAULT : List (String × ℕ) :=
  [("EveningStandard", 4), ("DailyMail", 4), ("Arseblog", 3),
   ("PainInTheArsenal", 3), ("ArsenalInsider", 3)]

/-- Python dict assignment `d[k] = v` on an association list. -/
def assocSet : List (String × ℕ) → String → ℕ → List (String × ℕ)
  | [], k, v => [(k, v)]
  | kv :: r, k, v => if kv.1 = k then (k, v) :: r else kv :: assocSet r k v

/-- `{**defaults, **(caps or {})}`: lookup prefers the override. -/
def mergeCaps (defaults : List (String × ℕ)) (capsOpt : Option (List (String × ℕ))) :
    List (String × ℕ) :=
  (capsOpt.getD []).foldl (fun acc kv => assocSet acc kv.1 kv.2) defaults

/-- The scan loop of `_fill_with_limit`: from index `i`, admit indices
whose provider count is below its limit, until the page budget
`size - |selected|` is met or the corpus ends.  `fuel` bounds the loop
and is instantiated with the corpus length, which always suffices.
Returns the updated counts (shared across passes) and the chosen
indices. -/
def fillAux (l : List Item) (size : ℕ) (lim : List (String × ℕ)) (sel : List ℕ) :
    ℕ → List (String × ℕ) → List ℕ → ℕ → List (String × ℕ) × List ℕ
  | 0, cnt, ch, _ => (cnt, ch)
  | fuel + 1, cnt, ch, i =>
      if ch.length + sel.length < size ∧ i < l.length then
        if i ∈ sel then fillAux l size lim sel fuel cnt ch (i + 1)
        else
          let it := l.getD i dummyItem
          let prov := canonicalize_provider (it.provider.getD "")
          let limit := (lim.lookup prov).getD 2
          if (cnt.lookup prov).getD 0 < limit then
            fillAux l size lim sel fuel (assocSet cnt prov ((cnt.lookup prov).getD 0 + 1))
              (ch ++ [i]) (i + 1)
          else fillAux l size lim sel fuel cnt ch (i + 1)
      else (cnt, ch)

/-- `selected_idx.update(idx_list)` for a set modelled as a
duplicate-free list (insertion order is irrelevant: the set is only
read through membership and `sorted`). -/
def setUpdate (sel : List ℕ) (idx : List ℕ) : List ℕ :=
  idx.foldl (fun s i => if i ∈ s then s else s ++ [i]) sel

/-- `[sorted_items[i] for i in sorted(selected_idx)][:page_size]`. -/
def pageSlice (l : List Item) (sel : List ℕ) (size : ℕ) : List Item :=
  ((List.insertionSort (· ≤ ·) sel).map (fun i => l.getD i dummyItem)).take size

/-- The final unconditional top-up loop of `page_with_caps`. -/
def finalFill (l : List Item) (size : ℕ) : ℕ → List ℕ → ℕ → List ℕ
  | 0, sel, _ => sel
  | fuel + 1, sel, i =>
      if sel.length < size ∧ i < l.length then
        finalFill l size fuel (if i ∈ sel then sel else sel ++ [i]) (i + 1)
      else sel

/-- The slice start offset of `page_with_caps`:
`start = max(0, (page - 1) * size)`. -/
def pwcStart (page size : ℕ) : ℕ := max 0 ((page - 1) * size)

/-- `caps = {**_PROVIDER_CAPS_DEFAULT, **(caps or {})}`. -/
def pwcCaps (capsOpt : Option (List (String × ℕ))) : List (String × ℕ) :=
  mergeCaps PROVIDER_CAPS_DEFAULT capsOpt

/-- Pass 1 of `page_with_caps` (strict caps): the updated per-provider
counts and the chosen indices, in the source's local names `r1`. -/
def pwcR1 (l : List Item) (page size : ℕ) (capsOpt : Option (List (String × ℕ))) :
    List (String × ℕ) × List ℕ :=
  fillAux l size (pwcCaps capsOpt) [] l.length [] [] (pwcStart page size)

/-- Selection after pass 1 (`selected` updated with pass 1's picks). -/
def pwcSel1 (l : List Item) (page size : ℕ) (capsOpt : Option (List (String × ℕ))) : List ℕ :=
  setUpdate [] (pwcR1 l page size capsOpt).2

/-- Pass 2 of `page_with_caps` (caps + 1), continuing pass 1's counts. -/
def pwcR2 (l : List Item) (page size : ℕ) (capsOpt : Option (List (String × ℕ))) :
    List (String × ℕ) × List ℕ :=
  fillAux l size ((pwcCaps capsOpt).map (fun kv => (kv.1, kv.2 + 1)))
    (pwcSel1 l page size capsOpt) l.length (pwcR1 l page size capsOpt).1 [] (pwcStart page size)

/-- Selection after pass 2. -/
def pwcSel2 (l : List Item) (page size : ℕ) (capsOpt : Option (List (String × ℕ))) : List ℕ :=
  setUpdate (pwcSel1 l page size capsOpt) (pwcR2 l page size capsOpt).2

/-- Pass 3 of `page_with_caps` (caps + 2), continuing pass 2's counts. -/
def pwcR3 (l : List Item) (page size : ℕ) (capsOpt : Option (List (String × ℕ))) :
    List (String × ℕ) × List ℕ :=
  fillAux l size ((pwcCaps capsOpt).map (fun kv => (kv.1, kv.2 + 2)))
    (pwcSel2 l page size capsOpt) l.length (pwcR2 l page size capsOpt).1 [] (pwcStart page size)

/-- Selection after pass 3. -/
def pwcSel3 (l : List Item) (page size : ℕ) (capsOpt : Option (List (String × ℕ))) : List ℕ :=
  setUpdate (pwcSel2 l page size capsOpt) (pwcR3 l page size capsOpt).2

/-- `page_with_caps` from `policy.py`: the out-of-range guard, the three
capped passes each returning early once the page budget `size` is met,
and the final unconditional top-up loop. -/
def page_with_caps (l : List Item) (page size : ℕ)
    (capsOpt : Option (List (String × ℕ))) : List Item :=
  if l.length ≤ pwcStart page size then []
  else if size ≤ (pwcSel1 l page size capsOpt).length then
    pageSlice l (pwcSel1 l page size capsOpt) size
  else if size ≤ (pwcSel2 l page size capsOpt).length then
    pageSlice l (pwcSel2 l page size capsOpt) size
  else if size ≤ (pwcSel3 l page size capsOpt).length then
    pageSlice l (pwcSel3 l page size capsOpt) size
  else
    pageSlice l
      (finalFill l size l.length (pwcSel3 l page size capsOpt) (pwcStart page size)) size

/- ### Formalized claims and concrete inputs -/

/-- C3's claimed shape of the ranking score: some provider-tier bonus,
plus a freshness bonus that is positive within 48 hours of publication
and zero beyond, plus an image bonus, minus a penalty proportional to a
per-item violation count.  Since the serving time is arbitrary, the
equation must hold for every age. -/
def ClaimC3 : Prop :=
  ∃ (tier : String → ℤ) (fresh : ℕ → ℤ) (imgB : ℤ) (pen : ℤ) (viol : Item → ℕ),
    (∀ h : ℕ, h < 48 → 0 < fresh h) ∧
    (∀ h : ℕ, 48 ≤ h → fresh h = 0) ∧
    (∀ (it : Item) (ageHours : ℕ),
      (score it : ℤ) = tier (canonicalize_provider (it.provider.getD "")) + fresh ageHours
        + (if (it.imageUrl.getD "") ≠ "" then imgB else 0) - pen * (viol it : ℤ))

/-- The aliases `_aliases_for "ARS"` resolves to in `main.py`. -/
def ARS_ALIASES : List String := ["Arsenal", "Gunners", "AFC", "Arsenal FC"]

/-- The five conditions C4 lists: allow-listed provider, no women/U19
keywords, kind not banned, not opponent-centric, and team relevance for
the general-press providers. -/
def fiveConds (it : Item) : Prop :=
  ALLOWED_PROVIDERS.contains (canonicalize_provider (it.provider.getD "")) = true
  ∧ ¬(is_women_or_u19 (it.title.getD "") = true ∨ is_women_or_u19 (it.summary.getD "") = true)
  ∧ ¬(classify_kind it = some "liveblog" ∨ classify_kind it = some "gallery"
      ∨ classify_kind it = some "howto")
  ∧ isOpponentCentric it ARS_ALIASES = false
  ∧ ((canonicalize_provider (it.provider.getD "") = "DailyMail"
      ∨ canonicalize_provider (it.provider.getD "") = "EveningStandard")
     → is_about_arsenal it = true)

/-- C4 as stated: the filter keeps exactly the items passing the five
conditions. -/
def ClaimC4 : Prop := ∀ it : Item, keepB true it = true ↔ fiveConds it

/-- A fan-site prematch item: passes all five of C4's conditions but is
dropped by the code's prematch gate (prematch is EveningStandard-only). -/
def c4item : Item :=
  { dummyItem with
    provider := some "Arseblog", title := some "Team news ahead of the weekend",
    summary := some "", url := some "https://arseblog.com/team-news" }

/-- C6's normalization, as the spec words it: case-folded, trailing
slash stripped (the scheme is case-folded with the rest). -/
def specNormC6 (it : Item) : String := rstripSlash (lowerS (it.url.getD ""))

/-- C6 as stated: after exact dedup, survivors are pairwise distinct
under the spec's normalization, and each survivor is the first input
item bearing its normalized URL. -/
def ClaimC6 : Prop :=
  ∀ l : List Item,
    ((dedupe l).map specNormC6).Nodup
    ∧ (∀ x ∈ dedupe l, l.find? (fun y => specNormC6 y == specNormC6 x) = some x)

/-- Two items whose URLs differ only by a trailing slash: distinct for
the code's normalization, identical for the spec's. -/
def c6a : Item :=
  { dummyItem with
    provider := some "Arseblog", title := some "First piece",
    url := some "https://arseblog.com/x" }

def c6b : Item :=
  { dummyItem with
    provider := some "Arseblog", title := some "Second piece",
    url := some "https://arseblog.com/x/" }

/-- C7 as stated: the filter stage returns its surviving items
unchanged (every output item is an element of the input). -/
def ClaimC7 : Prop := ∀ (ew : Bool) (l : List Item) (x : Item), x ∈ filterStage ew l → x ∈ l

/-- A kept item with a short summary: `_polish_summary` rewrites it. -/
def c7item : Item :=
  { dummyItem with
    provider := some "Arseblog", title := some "Seven quiet days at the training ground",
    summary := some "", url := some "https://arseblog.com/seven-quiet-days" }

/-- C8's spec-side sort key: the epoch fallback applied to every absent
or unparseable timestamp (then score, title, id-or-url as in the code's
tie key). -/
def specC8Key (x : Item) : ℕ × ℕ × List ℕ × List ℕ :=
  ((parseIso (x.publishedUtc.getD "")).getD 0, score x,
   strCodes (lowerS (x.title.getD "")),
   strCodes (lowerS (let a := x.id.getD ""; if a = "" then x.url.getD "" else a)))

/-- Python `<` on the spec-side keys. -/
def skLtB (a b : ℕ × ℕ × List ℕ × List ℕ) : Bool :=
  if a.1 ≠ b.1 then decide (a.1 < b.1)
  else if a.2.1 ≠ b.2.1 then decide (a.2.1 < b.2.1)
  else if listNatLtB a.2.2.1 b.2.2.1 then true
  else if listNatLtB b.2.2.1 a.2.2.1 then false
  else listNatLtB a.2.2.2 b.2.2.2

/-- C8 as stated: unparseable timestamps never cause rejection (the
filter's verdict does not depend on `publishedUtc`), and the pipeline
orders items as if such timestamps were the epoch, i.e. its output is
descending under the spec-side key. -/
def ClaimC8 : Prop :=
  (∀ (ew : Bool) (it : Item) (p q : Option String),
    keepB ew { it with publishedUtc := p } = keepB ew { it with publishedUtc := q })
  ∧ (∀ (l : List Item) (tc : String) (ew : Bool),
      (apply_policy_core l tc ew).Pairwise (fun a b => skLtB (specC8Key a) (specC8Key b) = false))

/-- A correctly dated item. -/
def c8good : Item :=
  { dummyItem with
    provider := some "Arseblog", title := some "Quiet afternoon at the training centre",
    summary := some "", url := some "https://arseblog.com/good",
    publishedUtc := some "2025-01-01T09:00:00Z" }

/-- An item with an unparseable timestamp; the string sorts above every
real ISO date. -/
def c8bad : Item :=
  { dummyItem with
    provider := some "Arseblog", title := some "Another calm morning update",
    summary := some "", url := some "https://arseblog.com/bad",
    publishedUtc := some "zzz" }

/-- C5 as stated: the reported `total` equals the size of the filtered,
deduplicated, collapsed corpus before per-provider capping. -/
def ClaimC5 : Prop :=
  ∀ (items : List Item) (teamAliases : List String) (page pageSize : ℕ),
    (get_news_core items teamAliases page pageSize).total
      = (selectedCorpus items teamAliases).length

/-- A fan item for the C5 counterexample. -/
def c5f (n : String) : Item :=
  { dummyItem with
    source := some "Arseblog", title := some ("Arseblog update " ++ n),
    summary := some "", url := some ("https://arseblog.com/u" ++ n) }

/-- Seven same-source items: with `pageSize = 8` the per-provider cap is
`max 6 (8 / 4) = 6`, so one item is capped away before `total` is taken. -/
def c5items : List Item :=
  [c5f "one", c5f "two", c5f "three", c5f "four", c5f "five", c5f "six", c5f "seven"]

/-- Two items sharing one URL: exact dedup keeps whichever comes first,
so the pipeline is not invariant under permutation. -/
def c1a : Item :=
  { dummyItem with
    provider := some "Arseblog", title := some "Hello world morning coffee",
    summary := some "", url := some "https://arseblog.com/post-one" }

def c1b : Item :=
  { dummyItem with
    provider := some "Arseblog", title := some "Quiet afternoon training notes",
    summary := some "", url := some "https://arseblog.com/post-one" }

/-- A second, URL-distinct item for the C1 witness. -/
def c1c : Item :=
  { dummyItem with
    provider := some "Arseblog", title := some "Quiet afternoon training notes",
    summary := some "", url := some "https://arseblog.com/post-two" }

/-- A plainly kept, singly-bucketed item for the C10 witness. -/
def w10item : Item :=
  { dummyItem with
    provider := some "Arseblog", title := some "Seven quiet days at the training ground",
    summary := some "", url := some "https://arseblog.com/seven-quiet-days",
    publishedUtc := some "2025-10-01T10:00:00Z" }

/-- Three generic items for the C2 witness. -/
def c2list : List Item :=
  [{ dummyItem with provider := some "Arseblog", url := some "u1" },
   { dummyItem with provider := some "Arseblog", url := some "u2" },
   { dummyItem with provider := some "Arseblog", url := some "u3" }]

/- ### Supporting lemmas -/

set_option maxRecDepth 40000

theorem polish_frame (it : Item) :
    (polishSummary it).title = it.title ∧ (polishSummary it).url = it.url
    ∧ (polishSummary it).provider = it.provider ∧ (polishSummary it).id = it.id
    ∧ (polishSummary it).imageUrl = it.imageUrl
    ∧ (polishSummary it).publishedUtc = it.publishedUtc
    ∧ (polishSummary it).source = it.source ∧ (polishSummary it).snippet = it.snippet := by
  simp only [polishSummary]
  split_ifs <;> simp

theorem polish_keeps_long (it : Item)
    (h : 40 ≤ slen (stripS (it.summary.getD ""))) :
    (polishSummary it).summary = it.summary := by
  simp only [polishSummary]
  rw [if_pos h]

theorem dedupeAux_sub (m : List Item) :
    ∀ (seen : List String), ∀ x ∈ dedupeAux seen m,
      x ∈ m ∧ dedupeNorm x ≠ "" ∧ dedupeNorm x ∉ seen := by
  induction m with
  | nil => intro seen x hx; simp [dedupeAux] at hx
  | cons it rest ih =>
      intro seen x hx
      by_cases h : dedupeNorm it = "" ∨ dedupeNorm it ∈ seen
      · rw [dedupeAux, if_pos h] at hx
        obtain ⟨h1, h2, h3⟩ := ih seen x hx
        exact ⟨List.mem_cons_of_mem _ h1, h2, h3⟩
      · rw [dedupeAux, if_neg h] at hx
        push_neg at h
        rcases List.mem_cons.1 hx with rfl | hx
        · exact ⟨List.mem_cons_self _ _, h.1, h.2⟩
        · obtain ⟨h1, h2, h3⟩ := ih _ x hx
          refine ⟨List.mem_cons_of_mem _ h1, h2, fun hc => h3 ?_⟩
          exact List.mem_cons_of_mem _ hc

theorem dedupeAux_nodup (m : List Item) :
    ∀ (seen : List String), ((dedupeAux seen m).map dedupeNorm).Nodup := by
  induction m with
  | nil => intro seen; simp [dedupeAux]
  | cons it rest ih =>
      intro seen
      by_cases h : dedupeNorm it = "" ∨ dedupeNorm it ∈ seen
      · rw [dedupeAux, if_pos h]; exact ih seen
      · rw [dedupeAux, if_neg h]
        simp only [List.map_cons, List.nodup_cons]
        refine ⟨?_, ih _⟩
        intro hc
        obtain ⟨y, hy, hye⟩ := List.mem_map.1 hc
        have h2 := (dedupeAux_sub rest _ y hy).2.2
        exact h2 (by rw [hye]; exact List.mem_cons_self _ _)

theorem dedupeAux_find (m : List Item) :
    ∀ (seen : List String) (x : Item), x ∈ dedupeAux seen m →
      m.find? (fun y => dedupeNorm y == dedupeNorm x) = some x := by
  induction m with
  | nil => intro seen x hx; simp [dedupeAux] at hx
  | cons it rest ih =>
      intro seen x hx
      by_cases h : dedupeNorm it = "" ∨ dedupeNorm it ∈ seen
      · rw [dedupeAux, if_pos h] at hx
        obtain ⟨-, h2, h3⟩ := dedupeAux_sub rest seen x hx
        have hne : dedupeNorm it ≠ dedupeNorm x := by
          rcases h with h | h
          · rw [h]; exact fun hc => h2 hc.symm
          · intro hc; rw [hc] at h; exact h3 h
        rw [List.find?_cons_of_neg _ (by simpa using hne)]
        exact ih seen x hx
      · rw [dedupeAux, if_neg h] at hx
        rcases List.mem_cons.1 hx with rfl | hx
        · rw [List.find?_cons_of_pos _ (by simp)]
        · obtain ⟨-, -, h3⟩ := dedupeAux_sub rest _ x hx
          have hne : dedupeNorm it ≠ dedupeNorm x := by
            intro hc; rw [hc] at h3; exact h3 (List.mem_cons_self _ _)
          rw [List.find?_cons_of_neg _ (by simpa using hne)]
          exact ih _ x hx

theorem dedupe_of_clean : ∀ (m : List Item) (seen : List String),
    (∀ x ∈ m, dedupeNorm x ≠ "" ∧ dedupeNorm x ∉ seen) → (m.map dedupeNorm).Nodup →
    dedupeAux seen m = m := by
  intro m
  induction m with
  | nil => intro seen _ _; rfl
  | cons it rest ih =>
      intro seen h hnd
      have hh := h it (List.mem_cons_self _ _)
      rw [dedupeAux, if_neg (by push_neg; exact hh)]
      simp only [List.map_cons, List.nodup_cons] at hnd
      congr 1
      apply ih
      · intro x hx
        refine ⟨(h x (List.mem_cons_of_mem _ hx)).1, ?_⟩
        intro hc
        rcases List.mem_cons.1 hc with hc | hc
        · exact hnd.1 (List.mem_map.2 ⟨x, hx, hc⟩)
        · exact (h x (List.mem_cons_of_mem _ hx)).2 hc
      · exact hnd.2

theorem pickMax_mem (xs : List Item) : ∀ (x : Item), pickMax x xs ∈ x :: xs := by
  induction xs with
  | nil => intro x; simp [pickMax]
  | cons y ys ih =>
      intro x
      have step : pickMax x (y :: ys) = pickMax (if collScoreGT y x then y else x) ys := by
        simp [pickMax]
      rw [step]
      rcases List.mem_cons.1 (ih (if collScoreGT y x then y else x)) with h | h
      · rw [h]
        split_ifs <;> simp
      · simp [h]

theorem pickPreferred_mem (g : List Item) (pref : String) (x : Item) (xs : List Item)
    (hg : g = x :: xs) : pickPreferred g pref x xs ∈ x :: xs := by
  rw [pickPreferred]
  split
  · exact pickMax_mem _ x
  · rename_i c cs hfil
    have hm := pickMax_mem cs c
    rw [← hfil] at hm
    rw [← hg]
    exact List.mem_of_mem_filter hm

theorem surviveGroup_mem (g : List Item) (hg : g ≠ []) : surviveGroup g ∈ g := by
  match g with
  | x :: xs =>
      rw [surviveGroup]
      by_cases hx : xs = []
      · rw [if_pos hx]
        exact List.mem_cons_self _ _
      · rw [if_neg hx]
        dsimp only
        split_ifs <;>
          first
            | exact pickPreferred_mem _ _ x xs rfl
            | exact pickMax_mem _ x

theorem groupByKeyAux_master (f : Item → String × String) :
    ∀ (n : ℕ) (m : List Item), m.length ≤ n →
      (∀ kg ∈ groupByKeyAux f n m, kg.2 ≠ [] ∧ ∀ z ∈ kg.2, z ∈ m ∧ f z = kg.1)
      ∧ ((groupByKeyAux f n m).map Prod.fst).Nodup := by
  intro n
  induction n with
  | zero =>
      intro m hm
      simp [groupByKeyAux]
  | succ n ih =>
      intro m hm
      match m with
      | [] => simp [groupByKeyAux]
      | x :: xs =>
          have hxs : xs.length ≤ n := by simpa using hm
          have hlen : (xs.filter (fun y => !decide (f y = f x))).length ≤ n :=
            le_trans (List.length_filter_le _ _) hxs
          rw [groupByKeyAux]
          constructor
          · intro kg hkg
            rcases List.mem_cons.1 hkg with rfl | hkg
            · refine ⟨by simp, ?_⟩
              intro z hz
              rcases List.mem_cons.1 hz with rfl | hz
              · exact ⟨List.mem_cons_self _ _, rfl⟩
              · have h2 := List.mem_filter.1 hz
                exact ⟨List.mem_cons_of_mem _ h2.1, by simpa using h2.2⟩
            · obtain ⟨hne, hmem⟩ := ((ih _ hlen).1 kg hkg)
              refine ⟨hne, fun z hz => ?_⟩
              obtain ⟨hz1, hz2⟩ := hmem z hz
              exact ⟨List.mem_cons_of_mem _ (List.mem_of_mem_filter hz1), hz2⟩
          · simp only [List.map_cons, List.nodup_cons]
            refine ⟨?_, (ih _ hlen).2⟩
            intro hc
            obtain ⟨kg, hkg, hkey⟩ := List.mem_map.1 hc
            obtain ⟨hne, hmem⟩ := (ih _ hlen).1 kg hkg
            obtain ⟨z, hz⟩ := List.exists_mem_of_ne_nil kg.2 hne
            obtain ⟨hz1, hz2⟩ := hmem z hz
            have h3 := List.mem_filter.1 hz1
            have h4 : ¬(f z = f x) := by simpa using h3.2
            exact h4 (by rw [hz2, hkey])

theorem groupByKey_master (f : Item → String × String) (m : List Item) :
    (∀ kg ∈ groupByKey f m, kg.2 ≠ [] ∧ ∀ z ∈ kg.2, z ∈ m ∧ f z = kg.1)
    ∧ ((groupByKey f m).map Prod.fst).Nodup :=
  groupByKeyAux_master f m.length m le_rfl

theorem groupByKeyAux_of_nodup (f : Item → String × String) :
    ∀ (n : ℕ) (m : List Item), m.length ≤ n → (m.map f).Nodup →
      groupByKeyAux f n m = m.map (fun x => (f x, [x])) := by
  intro n
  induction n with
  | zero =>
      intro m hm _
      have : m = [] := List.eq_nil_of_length_eq_zero (Nat.le_zero.1 hm)
      subst this
      simp [groupByKeyAux]
  | succ n ih =>
      intro m hm hnd
      match m with
      | [] => simp [groupByKeyAux]
      | x :: xs =>
          have hxs : xs.length ≤ n := by simpa using hm
          simp only [List.map_cons, List.nodup_cons] at hnd
          have hf1 : xs.filter (fun y => decide (f y = f x)) = [] := by
            rw [List.filter_eq_nil_iff]
            intro a ha
            simp only [decide_eq_true_eq]
            intro hc
            exact hnd.1 (List.mem_map.2 ⟨a, ha, hc⟩)
          have hf2 : xs.filter (fun y => !decide (f y = f x)) = xs := by
            rw [List.filter_eq_self]
            intro a ha
            simp only [Bool.not_eq_true', decide_eq_false_iff_not]
            intro hc
            exact hnd.1 (List.mem_map.2 ⟨a, ha, hc⟩)
          rw [groupByKeyAux, hf1, hf2, ih xs hxs hnd.2]
          simp

theorem groupByKey_of_nodup (f : Item → String × String) (m : List Item)
    (hnd : (m.map f).Nodup) : groupByKey f m = m.map (fun x => (f x, [x])) :=
  groupByKeyAux_of_nodup f m.length m le_rfl hnd

theorem collapse_eq_self (m : List Item) (h : (m.map bucket_key).Nodup) :
    collapse_near_dupes m = m := by
  rcases m with _ | ⟨x, xs⟩
  · rfl
  · rw [collapse_near_dupes, if_neg (by simp)]
    rw [groupByKey_of_nodup bucket_key _ h]
    rw [List.map_map]
    have hcomp : ((fun kg : (String × String) × List Item => surviveGroup kg.2)
        ∘ fun z : Item => (bucket_key z, [z])) = fun z : Item => z := by
      funext z
      rfl
    rw [hcomp]
    exact List.map_id _

theorem collapse_keys_nodup (m : List Item) :
    ((collapse_near_dupes m).map bucket_key).Nodup := by
  rcases m with _ | ⟨x, xs⟩
  · simp [collapse_near_dupes]
  · rw [collapse_near_dupes, if_neg (by simp)]
    obtain ⟨hmem, hnd⟩ := groupByKey_master bucket_key (x :: xs)
    rw [List.map_map]
    have heq : ((groupByKey bucket_key (x :: xs)).map
          (bucket_key ∘ fun kg : (String × String) × List Item => surviveGroup kg.2))
        = (groupByKey bucket_key (x :: xs)).map Prod.fst := by
      apply List.map_congr_left
      intro kg hkg
      obtain ⟨hne, hall⟩ := hmem kg hkg
      exact (hall _ (surviveGroup_mem kg.2 hne)).2
    rw [heq]
    exact hnd

theorem collapse_sub (m : List Item) : ∀ u ∈ collapse_near_dupes m, u ∈ m := by
  rcases m with _ | ⟨x, xs⟩
  · simp [collapse_near_dupes]
  · rw [collapse_near_dupes, if_neg (by simp)]
    intro u hu
    obtain ⟨kg, hkg, rfl⟩ := List.mem_map.1 hu
    obtain ⟨hmem, -⟩ := groupByKey_master bucket_key (x :: xs)
    obtain ⟨hne, hall⟩ := hmem kg hkg
    exact (hall _ (surviveGroup_mem kg.2 hne)).1

theorem declumpItem_frame (m : List Item) (z : Item) :
    (declumpItem m z).title = z.title ∧ (declumpItem m z).url = z.url
    ∧ (declumpItem m z).provider = z.provider ∧ (declumpItem m z).id = z.id
    ∧ (declumpItem m z).imageUrl = z.imageUrl ∧ (declumpItem m z).summary = z.summary := by
  rw [declumpItem]
  split
  · simp
  · split_ifs <;> simp

/- ### The claims -/

/-- C3, counterexample: the code's ranking score is not a sum containing
a freshness bonus positive within 48 hours and zero beyond — `_score`
ignores `publishedUtc` entirely, so no such decomposition exists. -/
theorem C3_counterexample : ¬ ClaimC3 := by
  rintro ⟨tier, fresh, imgB, pen, viol, hpos, hzero, heq⟩
  have h1 := heq dummyItem 0
  have h2 := heq dummyItem 48
  rw [hzero 48 le_rfl] at h2
  have h3 := hpos 0 (by norm_num)
  linarith

/-- C3, amended: for every item the ranking score is exactly a
provider-tier bonus — 1000 for the official-tier providers
EveningStandard and DailyMail, 0 otherwise — plus 1 when the item has a
non-empty image URL; there is no freshness bonus and no violations
penalty. -/
theorem C3_amended (it : Item) :
    score it
      = (if (["EveningStandard", "DailyMail"] : List String).contains
            (canonicalize_provider (it.provider.getD "")) then 1000 else 0)
        + (if (it.imageUrl.getD "") ≠ "" then 1 else 0) := by
  simp only [score]
  split_ifs <;> simp_all

/-- C4, counterexample: the Arseblog item "Team news ahead of the
weekend" satisfies all five listed conditions yet is dropped, because
the filter additionally restricts prematch items to EveningStandard. -/
theorem C4_counterexample : ¬ ClaimC4 := by
  intro h
  have h2 := (h c4item).mpr
    (by
      unfold fiveConds
      refine ⟨by decide, by decide, by decide, by decide, ?_⟩
      intro hc
      exact absurd hc (by decide))
  exact absurd h2 (by decide)

/-- C4, amended: the filter keeps an item iff its canonical provider is
allow-listed, it matches no women/U19 keyword in title or summary, the
official-press providers DailyMail/EveningStandard carry an Arsenal
relevance signal, its kind is none of liveblog/howto/gallery, prematch
items come from EveningStandard, and postmatch items come from
PainInTheArsenal; there is no opponent-centric condition in this filter. -/
theorem C4_amended (it : Item) :
    keepB true it = true ↔
      (ALLOWED_PROVIDERS.contains (canonicalize_provider (it.provider.getD "")) = true
       ∧ ¬(is_women_or_u19 (it.title.getD "") = true
           ∨ is_women_or_u19 (it.summary.getD "") = true)
       ∧ ((canonicalize_provider (it.provider.getD "") = "DailyMail"
           ∨ canonicalize_provider (it.provider.getD "") = "EveningStandard")
          → is_about_arsenal it = true)
       ∧ ¬(classify_kind it = some "liveblog" ∨ classify_kind it = some "howto"
           ∨ classify_kind it = some "gallery")
       ∧ (classify_kind it = some "prematch"
          → canonicalize_provider (it.provider.getD "") = "EveningStandard")
       ∧ (classify_kind it = some "postmatch"
          → canonicalize_provider (it.provider.getD "") = "PainInTheArsenal")) := by
  simp only [keepB]
  split_ifs with h1 h2 h3 h4 h5 h6 <;>
    (simp_all [Bool.or_eq_true, Bool.and_eq_true, Bool.not_eq_true', beq_iff_eq, bne_iff_ne];
     try tauto)

/-- C5, counterexample: seven same-source items with `pageSize = 8` give
a per-provider cap of 6; the reported `total` is 6 while the
filtered/deduplicated/collapsed corpus has 7 items. -/
theorem C5_counterexample : ¬ ClaimC5 := by
  intro h
  have h2 := h c5items ARS_ALIASES 1 8
  exact absurd h2 (by decide)

/-- C5, amended: the reported `total` equals the size of the corpus
after the per-provider cap `max 6 (pageSize / 4)` has been applied —
capping removes items from the corpus before `total` is computed, it
does not merely shape pages. -/
theorem C5_amended (items : List Item) (teamAliases : List String) (page pageSize : ℕ) :
    (get_news_core items teamAliases page pageSize).total
      = (capPhase (selectedCorpus items teamAliases) (max 6 (pageSize / 4))).length := by
  simp only [get_news_core]
  exact (List.perm_insertionSort newsRel _).length_eq

/-- C6, counterexample: two URLs that differ only by a trailing slash
both survive `_dedupe` (it normalizes by strip+lowercase only), yet
they share the spec's trailing-slash-stripped normalized URL. -/
theorem C6_counterexample : ¬ ClaimC6 := by
  intro h
  have h2 := (h [c6a, c6b]).1
  exact absurd h2 (by decide)

/-- C6, amended: under the code's normalization — whitespace-stripped,
case-folded, with no scheme normalization and no trailing-slash
stripping — exact dedup leaves survivors pairwise distinct and
non-empty, and each survivor is the first input item bearing its
normalized URL. -/
theorem C6_amended (l : List Item) :
    ((dedupe l).map dedupeNorm).Nodup
    ∧ (∀ x ∈ dedupe l, dedupeNorm x ≠ "")
    ∧ (∀ x ∈ dedupe l, l.find? (fun y => dedupeNorm y == dedupeNorm x) = some x) :=
  ⟨dedupeAux_nodup l [],
   fun x hx => (dedupeAux_sub l [] x hx).2.1,
   fun x hx => dedupeAux_find l [] x hx⟩

/-- C6, witness: the amended statement evaluated on the two-item list. -/
theorem C6_witness :
    ((dedupe [c6a, c6b]).map dedupeNorm).Nodup
    ∧ (∀ x ∈ dedupe [c6a, c6b], dedupeNorm x ≠ "")
    ∧ (∀ x ∈ dedupe [c6a, c6b],
        [c6a, c6b].find? (fun y => dedupeNorm y == dedupeNorm x) = some x) :=
  C6_amended [c6a, c6b]

/-- C7, counterexample: the filter stage is not mutation-free — a kept
item with a short summary comes out with its summary rewritten to a
title teaser, so the output item is not an element of the input list. -/
theorem C7_counterexample : ¬ ClaimC7 := by
  intro h
  have h2 := h true [c7item] (polishSummary c7item) (by decide)
  exact absurd h2 (by decide)

/-- C7, amended: every item the filter stage emits is a kept input item
with at most its summary changed (by `_polish_summary`); all other
fields are returned exactly as supplied, and summaries of at least 40
characters are left alone. -/
theorem C7_amended (ew : Bool) (l : List Item) (x : Item) (hx : x ∈ filterStage ew l) :
    ∃ y ∈ l, keepB ew y = true ∧ x = polishSummary y
      ∧ x.title = y.title ∧ x.url = y.url ∧ x.provider = y.provider ∧ x.id = y.id
      ∧ x.imageUrl = y.imageUrl ∧ x.publishedUtc = y.publishedUtc
      ∧ (40 ≤ slen (stripS (y.summary.getD "")) → x.summary = y.summary) := by
  simp only [filterStage, List.mem_map] at hx
  obtain ⟨y, hy, rfl⟩ := hx
  have hyk := List.mem_filter.1 hy
  obtain ⟨f1, f2, f3, f4, f5, f6, -, -⟩ := polish_frame y
  exact ⟨y, hyk.1, hyk.2, rfl, f1, f2, f3, f4, f5, f6, polish_keeps_long y⟩

/-- C7, witness: the amended statement evaluated on a one-item list. -/
theorem C7_witness :
    ∃ y ∈ [c7item], keepB true y = true ∧ polishSummary c7item = polishSummary y
      ∧ (polishSummary c7item).title = y.title ∧ (polishSummary c7item).url = y.url
      ∧ (polishSummary c7item).provider = y.provider ∧ (polishSummary c7item).id = y.id
      ∧ (polishSummary c7item).imageUrl = y.imageUrl
      ∧ (polishSummary c7item).publishedUtc = y.publishedUtc
      ∧ (40 ≤ slen (stripS (y.summary.getD ""))
          → (polishSummary c7item).summary = y.summary) :=
  C7_amended true [c7item] (polishSummary c7item) (by decide)

/-- C8, counterexample: an item whose `publishedUtc` is the unparseable
string "zzz" is sorted by that raw string, which places it above a
genuinely fresh item instead of sinking it to the epoch as claimed. -/
theorem C8_counterexample : ¬ ClaimC8 := by
  rintro ⟨-, h2⟩
  have h3 := h2 [c8good, c8bad] "ARS" true
  exact absurd h3 (by decide)

/-- C8, amended: unparseable timestamps never cause rejection — the
filter's verdict is independent of `publishedUtc` — and for ordering an
absent or empty timestamp becomes the epoch string
"1970-01-01T00:00:00Z", while a non-empty unparseable string is
compared verbatim as a string rather than as the epoch. -/
theorem C8_amended (ew : Bool) (it : Item) (p q : Option String) (s : String) (hs : s ≠ "") :
    keepB ew { it with publishedUtc := p } = keepB ew { it with publishedUtc := q }
    ∧ isoD none = "1970-01-01T00:00:00Z"
    ∧ isoD (some "") = "1970-01-01T00:00:00Z"
    ∧ isoD (some s) = s := by
  refine ⟨by cases it; rfl, rfl, rfl, ?_⟩
  simp [isoD, hs]

/-- C8, witness: the amended statement at a concrete item and the
unparseable string "zzz". -/
theorem C8_witness :
    keepB true { dummyItem with publishedUtc := none }
        = keepB true { dummyItem with publishedUtc := some "zzz" }
    ∧ isoD none = "1970-01-01T00:00:00Z"
    ∧ isoD (some "") = "1970-01-01T00:00:00Z"
    ∧ isoD (some "zzz") = "zzz" :=
  C8_amended true dummyItem none (some "zzz") "zzz" (by decide)

/-- C9: both shrinking stages are idempotent — running exact dedup or
near-duplicate collapse on their own output returns it unchanged, same
items and same order. -/
theorem C9_thm (l : List Item) :
    dedupe (dedupe l) = dedupe l
    ∧ collapse_near_dupes (collapse_near_dupes l) = collapse_near_dupes l := by
  constructor
  · apply dedupe_of_clean
    · intro x hx
      have h := dedupeAux_sub l [] x hx
      exact ⟨h.2.1, h.2.2⟩
    · exact dedupeAux_nodup l []
  · exact collapse_eq_self _ (collapse_keys_nodup l)

theorem filterStage_shape (ew : Bool) (l : List Item) (x : Item)
    (hx : x ∈ filterStage ew l) :
    ∃ y, y ∈ l ∧ keepB ew y = true ∧ x = polishSummary y := by
  simp only [filterStage, List.mem_map] at hx
  obtain ⟨y, hy, rfl⟩ := hx
  have hyk := List.mem_filter.1 hy
  exact ⟨y, hyk.1, hyk.2, rfl⟩

theorem declumpItem_pub (m : List Item) (z : Item) :
    (∃ e, parseIso (z.publishedUtc.getD "") = some e
       ∧ 2 ≤ minuteCount m (z.provider.getD "") e
       ∧ (declumpItem m z).publishedUtc = some (staggeredPub e (z.url.getD "")))
    ∨ ((declumpItem m z).publishedUtc = z.publishedUtc
       ∧ ¬(∃ e, parseIso (z.publishedUtc.getD "") = some e
           ∧ 2 ≤ minuteCount m (z.provider.getD "") e)) := by
  rw [declumpItem]
  cases heq : parseIso (z.publishedUtc.getD "") with
  | none =>
      right
      refine ⟨rfl, ?_⟩
      rintro ⟨e, he, -⟩
      exact Option.noConfusion he
  | some e =>
      dsimp only
      by_cases hc : 2 ≤ minuteCount m (z.provider.getD "") e
      · left
        exact ⟨e, rfl, hc, by rw [if_pos hc]⟩
      · right
        refine ⟨by rw [if_neg hc], ?_⟩
        rintro ⟨e2, he2, hc2⟩
        cases he2
        exact hc hc2

/-- C10: the pipeline mutates at most `summary` and `publishedUtc` —
every output item is an input item with title, url, provider, id and
imageUrl returned exactly as supplied, summary equal to its
`_polish_summary` result, and `publishedUtc` rewritten to the
minute-start-plus-SHA-1-offset value exactly when two or more surviving
items share its canonical-provider/UTC-minute bucket, otherwise
unchanged. -/
theorem C10_thm (items : List Item) (tc : String) (ew : Bool) (x : Item)
    (hx : x ∈ apply_policy_core items tc ew) :
    ∃ y ∈ items, x.title = y.title ∧ x.url = y.url ∧ x.provider = y.provider
      ∧ x.id = y.id ∧ x.imageUrl = y.imageUrl ∧ x.summary = (polishSummary y).summary
      ∧ ((∃ e, parseIso (y.publishedUtc.getD "") = some e
            ∧ 2 ≤ minuteCount (coreMid ew items) (y.provider.getD "") e
            ∧ x.publishedUtc = some (staggeredPub e (y.url.getD "")))
         ∨ (x.publishedUtc = y.publishedUtc
            ∧ ¬(∃ e, parseIso (y.publishedUtc.getD "") = some e
                ∧ 2 ≤ minuteCount (coreMid ew items) (y.provider.getD "") e))) := by
  simp only [apply_policy_core, sortDesc] at hx
  have hx2 : x ∈ declump (coreMid ew items) :=
    ((List.perm_insertionSort tieRel _).mem_iff).1 hx
  simp only [declump, List.mem_map] at hx2
  obtain ⟨z, hz, rfl⟩ := hx2
  have hz2 := collapse_sub _ z hz
  have hz3 := (dedupeAux_sub _ [] z hz2).1
  obtain ⟨y, hy, hk, rfl⟩ := filterStage_shape ew items _ hz3
  obtain ⟨p1, p2, p3, p4, p5, p6, -, -⟩ := polish_frame y
  obtain ⟨d1, d2, d3, d4, d5, d6⟩ := declumpItem_frame (coreMid ew items) (polishSummary y)
  refine ⟨y, hy, ?_, ?_, ?_, ?_, ?_, ?_, ?_⟩
  · rw [d1, p1]
  · rw [d2, p2]
  · rw [d3, p3]
  · rw [d4, p4]
  · rw [d5, p5]
  · rw [d6]
  · have hpub := declumpItem_pub (coreMid ew items) (polishSummary y)
    rw [p6, p3, p2] at hpub
    exact hpub

/-- C10, witness. -/
theorem C10_witness :
    ∃ y ∈ [w10item], (polishSummary w10item).title = y.title
      ∧ (polishSummary w10item).url = y.url
      ∧ (polishSummary w10item).provider = y.provider
      ∧ (polishSummary w10item).id = y.id
      ∧ (polishSummary w10item).imageUrl = y.imageUrl
      ∧ (polishSummary w10item).summary = (polishSummary y).summary
      ∧ ((∃ e, parseIso (y.publishedUtc.getD "") = some e
            ∧ 2 ≤ minuteCount (coreMid true [w10item]) (y.provider.getD "") e
            ∧ (polishSummary w10item).publishedUtc = some (staggeredPub e (y.url.getD "")))
         ∨ ((polishSummary w10item).publishedUtc = y.publishedUtc
            ∧ ¬(∃ e, parseIso (y.publishedUtc.getD "") = some e
                ∧ 2 ≤ minuteCount (coreMid true [w10item]) (y.provider.getD "") e))) :=
  C10_thm [w10item] "ARS" true (polishSummary w10item) (by decide)

theorem listNatLtB_asym : ∀ (a b : List ℕ), listNatLtB a b = true → listNatLtB b a = false := by
  intro a
  induction a with
  | nil =>
      intro b h
      cases b with
      | nil => simp [listNatLtB] at h
      | cons y ys => simp [listNatLtB]
  | cons x xs ih =>
      intro b h
      cases b with
      | nil => simp [listNatLtB] at h
      | cons y ys =>
          by_cases hxy : x < y
          · have hne : ¬y < x := by omega
            simp [listNatLtB, hxy, hne]
          · by_cases hyx : y < x
            · simp [listNatLtB, hxy, hyx] at h
            · simp only [listNatLtB, if_neg hxy, if_neg hyx] at h
              simp only [listNatLtB, if_neg hxy, if_neg hyx]
              exact ih ys h

theorem listNatLtB_conn :
    ∀ (a b : List ℕ), listNatLtB a b = false → listNatLtB b a = false → a = b := by
  intro a
  induction a with
  | nil =>
      intro b h1 _
      cases b with
      | nil => rfl
      | cons y ys => simp [listNatLtB] at h1
  | cons x xs ih =>
      intro b h1 h2
      cases b with
      | nil => simp [listNatLtB] at h2
      | cons y ys =>
          by_cases hxy : x < y
          · simp [listNatLtB, hxy] at h1
          · by_cases hyx : y < x
            · simp [listNatLtB, hyx] at h2
            · simp only [listNatLtB, if_neg hxy, if_neg hyx] at h1 h2
              have hxy2 : x = y := by omega
              rw [hxy2, ih ys h1 h2]

theorem listNatLtB_trans :
    ∀ (a b c : List ℕ), listNatLtB a b = true → listNatLtB b c = true →
      listNatLtB a c = true := by
  intro a
  induction a with
  | nil =>
      intro b c h1 h2
      cases b with
      | nil => simp [listNatLtB] at h1
      | cons y ys =>
          cases c with
          | nil => simp [listNatLtB] at h2
          | cons z zs => simp [listNatLtB]
  | cons x xs ih =>
      intro b c h1 h2
      cases b with
      | nil => simp [listNatLtB] at h1
      | cons y ys =>
          cases c with
          | nil => simp [listNatLtB] at h2
          | cons z zs =>
              by_cases hxy : x < y
              · by_cases hyz : y < z
                · simp [listNatLtB, (by omega : x < z)]
                · by_cases hzy : z < y
                  · simp [listNatLtB, hyz, hzy] at h2
                  · simp [listNatLtB, (by omega : x < z)]
              · by_cases hyx : y < x
                · simp [listNatLtB, hxy, hyx] at h1
                · simp only [listNatLtB, if_neg hxy, if_neg hyx] at h1
                  by_cases hyz : y < z
                  · simp [listNatLtB, (by omega : x < z)]
                  · by_cases hzy : z < y
                    · simp [listNatLtB, hyz, hzy] at h2
                    · simp only [listNatLtB, if_neg hyz, if_neg hzy] at h2
                      simp only [listNatLtB, if_neg (by omega : ¬x < z),
                        if_neg (by omega : ¬z < x)]
                      exact ih ys zs h1 h2

theorem pairLtB_asym {α β : Type} (ltA : α → α → Bool) (ltB : β → β → Bool)
    (hA : ∀ a b, ltA a b = true → ltA b a = false)
    (hB : ∀ a b, ltB a b = true → ltB b a = false) :
    ∀ x y, pairLtB ltA ltB x y = true → pairLtB ltA ltB y x = false := by
  intro x y h
  rw [pairLtB] at h ⊢
  by_cases g1 : ltA x.1 y.1 = true
  · rw [if_neg (by simp [hA _ _ g1]), if_pos g1]
  · rw [if_neg (by simpa using g1)] at h
    by_cases g2 : ltA y.1 x.1 = true
    · rw [if_pos g2] at h
      exact absurd h (by simp)
    · rw [if_neg (by simpa using g2)] at h
      rw [if_neg (by simpa using g2), if_neg (by simpa using g1)]
      exact hB _ _ h

theorem pairLtB_conn {α β : Type} (ltA : α → α → Bool) (ltB : β → β → Bool)
    (hA : ∀ a b, ltA a b = false → ltA b a = false → a = b)
    (hB : ∀ a b, ltB a b = false → ltB b a = false → a = b) :
    ∀ x y, pairLtB ltA ltB x y = false → pairLtB ltA ltB y x = false → x = y := by
  intro x y h1 h2
  rw [pairLtB] at h1 h2
  by_cases g1 : ltA x.1 y.1 = true
  · rw [if_pos g1] at h1
    exact absurd h1 (by simp)
  · by_cases g2 : ltA y.1 x.1 = true
    · rw [if_pos g2] at h2
      exact absurd h2 (by simp)
    · rw [if_neg (by simpa using g1), if_neg (by simpa using g2)] at h1
      rw [if_neg (by simpa using g2), if_neg (by simpa using g1)] at h2
      have e1 := hA _ _ (by simpa using g1) (by simpa using g2)
      have e2 := hB _ _ h1 h2
      exact Prod.ext e1 e2

theorem pairLtB_trans {α β : Type} (ltA : α → α → Bool) (ltB : β → β → Bool)
    (hAt : ∀ a b c, ltA a b = true → ltA b c = true → ltA a c = true)
    (hAc : ∀ a b, ltA a b = false → ltA b a = false → a = b)
    (hBt : ∀ a b c, ltB a b = true → ltB b c = true → ltB a c = true) :
    ∀ x y z, pairLtB ltA ltB x y = true → pairLtB ltA ltB y z = true →
      pairLtB ltA ltB x z = true := by
  intro x y z h1 h2
  rw [pairLtB] at h1 h2 ⊢
  by_cases g1 : ltA x.1 y.1 = true
  · by_cases g2 : ltA y.1 z.1 = true
    · rw [if_pos (hAt _ _ _ g1 g2)]
    · by_cases g3 : ltA z.1 y.1 = true
      · rw [if_neg (by simpa using g2), if_pos g3] at h2
        exact absurd h2 (by simp)
      · have e := hAc _ _ (by simpa using g2) (by simpa using g3)
        rw [← e]
        rw [if_pos g1]
  · by_cases g4 : ltA y.1 x.1 = true
    · rw [if_neg (by simpa using g1), if_pos g4] at h1
      exact absurd h1 (by simp)
    · have e := hAc _ _ (by simpa using g1) (by simpa using g4)
      rw [if_neg (by simpa using g1), if_neg (by simpa using g4)] at h1
      by_cases g2 : ltA y.1 z.1 = true
      · rw [e, if_pos g2]
      · by_cases g3 : ltA z.1 y.1 = true
        · rw [if_neg (by simpa using g2), if_pos g3] at h2
          exact absurd h2 (by simp)
        · rw [if_neg (by simpa using g2), if_neg (by simpa using g3)] at h2
          rw [e]
          rw [if_neg (by simpa using g2), if_neg (by simpa using g3)]
          exact hBt _ _ _ h1 h2

theorem natLtB_asym : ∀ a b : ℕ, natLtB a b = true → natLtB b a = false := by
  intro a b
  simp [natLtB]
  omega

theorem natLtB_conn : ∀ a b : ℕ, natLtB a b = false → natLtB b a = false → a = b := by
  intro a b
  simp [natLtB]
  omega

theorem natLtB_trans : ∀ a b c : ℕ, natLtB a b = true → natLtB b c = true → natLtB a c = true := by
  intro a b c
  simp [natLtB]
  omega

theorem tkLtB_asym : ∀ x y, tkLtB x y = true → tkLtB y x = false :=
  pairLtB_asym _ _ listNatLtB_asym
    (pairLtB_asym _ _ natLtB_asym
      (pairLtB_asym _ _ listNatLtB_asym listNatLtB_asym))

theorem tkLtB_conn : ∀ x y, tkLtB x y = false → tkLtB y x = false → x = y :=
  pairLtB_conn _ _ listNatLtB_conn
    (pairLtB_conn _ _ natLtB_conn
      (pairLtB_conn _ _ listNatLtB_conn listNatLtB_conn))

theorem tkLtB_trans : ∀ x y z, tkLtB x y = true → tkLtB y z = true → tkLtB x z = true :=
  pairLtB_trans _ _ listNatLtB_trans listNatLtB_conn
    (pairLtB_trans _ _ natLtB_trans natLtB_conn
      (pairLtB_trans _ _ listNatLtB_trans listNatLtB_conn listNatLtB_trans))

theorem sorted_perm_nodup_unique (key : Item → List ℕ × ℕ × List ℕ × List ℕ) :
    ∀ (s t : List Item), s.Perm t
      → s.Pairwise (fun a b => tkLtB (key a) (key b) = false)
      → t.Pairwise (fun a b => tkLtB (key a) (key b) = false)
      → (s.map key).Nodup → s = t := by
  intro s
  induction s with
  | nil =>
      intro t hp _ _ _
      exact List.Perm.nil_eq hp
  | cons a s ih =>
      intro t hp hs ht hnd
      cases t with
      | nil => exact absurd hp (by simp)
      | cons b t =>
          have hab : a = b := by
            by_contra hne
            have hat : a ∈ b :: t := hp.mem_iff.1 (List.mem_cons_self _ _)
            have hbs : b ∈ a :: s := hp.mem_iff.2 (List.mem_cons_self _ _)
            have hat2 : a ∈ t := by
              rcases List.mem_cons.1 hat with h | h
              · exact absurd h hne
              · exact h
            have hbs2 : b ∈ s := by
              rcases List.mem_cons.1 hbs with h | h
              · exact absurd h.symm hne
              · exact h
            have h1 : tkLtB (key a) (key b) = false :=
              (List.pairwise_cons.1 hs).1 b hbs2
            have h2 : tkLtB (key b) (key a) = false :=
              (List.pairwise_cons.1 ht).1 a hat2
            have hkey : key a = key b := tkLtB_conn _ _ h1 h2
            simp only [List.map_cons, List.nodup_cons] at hnd
            exact hnd.1 (List.mem_map.2 ⟨b, hbs2, hkey.symm⟩)
          subst hab
          have hp2 := hp.cons_inv
          simp only [List.map_cons, List.nodup_cons] at hnd
          have e := ih t hp2 (List.pairwise_cons.1 hs).2 (List.pairwise_cons.1 ht).2 hnd.2
          rw [e]

theorem declumpItem_congr {m₁ m₂ : List Item} (h : m₁.Perm m₂) (z : Item) :
    declumpItem m₁ z = declumpItem m₂ z := by
  rw [declumpItem, declumpItem]
  cases parseIso (z.publishedUtc.getD "") with
  | none => rfl
  | some e =>
      have hc : minuteCount m₁ (z.provider.getD "") e
          = minuteCount m₂ (z.provider.getD "") e :=
        List.Perm.countP_eq _ h
      dsimp only
      rw [hc]

theorem declump_perm {m₁ m₂ : List Item} (h : m₁.Perm m₂) :
    (declump m₁).Perm (declump m₂) := by
  rw [declump, declump]
  rw [List.map_congr_left (fun z _ => (declumpItem_congr h z).symm)]
  exact List.Perm.map _ h

theorem tieRel_total : ∀ a b : Item, tieRel a b ∨ tieRel b a := by
  intro a b
  by_cases h : tkLtB (tieKey a) (tieKey b) = true
  · right
    exact tkLtB_asym _ _ h
  · left
    exact Bool.eq_false_iff.2 h

theorem tieRel_trans : ∀ a b c : Item, tieRel a b → tieRel b c → tieRel a c := by
  intro a b c hab hbc
  rw [tieRel] at hab hbc ⊢
  by_contra hcon
  have hac : tkLtB (tieKey a) (tieKey c) = true := eq_true_of_ne_false hcon
  by_cases g : tkLtB (tieKey b) (tieKey a) = true
  · exact absurd (tkLtB_trans _ _ _ g hac) (by simp [hbc])
  · have e : tieKey a = tieKey b := tkLtB_conn _ _ hab (Bool.eq_false_iff.2 g)
    rw [e] at hac
    exact absurd hac (by simp [hbc])

/-- C1, amended: the pipeline is permutation-invariant on inputs that do
not exercise its order-dependent tie-breaks — whenever the filtered
items have non-empty pairwise-distinct dedupe-normalized URLs, pairwise
distinct near-duplicate cluster keys, and (after declumping) pairwise
distinct sort keys, permuting the input yields the identical output. -/
theorem C1_amended (tc : String) (ew : Bool) (l₁ l₂ : List Item)
    (hperm : l₁.Perm l₂)
    (h1 : ∀ x ∈ filterStage ew l₁, dedupeNorm x ≠ "")
    (h2 : ((filterStage ew l₁).map dedupeNorm).Nodup)
    (h3 : ((filterStage ew l₁).map bucket_key).Nodup)
    (h4 : ((declump (filterStage ew l₁)).map tieKey).Nodup) :
    apply_policy_core l₁ tc ew = apply_policy_core l₂ tc ew := by
  have hfp : (filterStage ew l₁).Perm (filterStage ew l₂) :=
    List.Perm.map _ (List.Perm.filter _ hperm)
  have h1b : ∀ x ∈ filterStage ew l₂, dedupeNorm x ≠ "" :=
    fun x hx => h1 x (hfp.mem_iff.2 hx)
  have h2b : ((filterStage ew l₂).map dedupeNorm).Nodup :=
    (List.Perm.map dedupeNorm hfp).nodup h2
  have h3b : ((filterStage ew l₂).map bucket_key).Nodup :=
    (List.Perm.map bucket_key hfp).nodup h3
  have hm1 : coreMid ew l₁ = filterStage ew l₁ := by
    rw [coreMid, dedupe]
    rw [dedupe_of_clean _ [] (fun x hx => ⟨h1 x hx, by simp⟩) h2]
    exact collapse_eq_self _ h3
  have hm2 : coreMid ew l₂ = filterStage ew l₂ := by
    rw [coreMid, dedupe]
    rw [dedupe_of_clean _ [] (fun x hx => ⟨h1b x hx, by simp⟩) h2b]
    exact collapse_eq_self _ h3b
  have hdp : (declump (filterStage ew l₁)).Perm (declump (filterStage ew l₂)) :=
    declump_perm hfp
  simp only [apply_policy_core, sortDesc, hm1, hm2]
  haveI ht : IsTotal Item tieRel := ⟨tieRel_total⟩
  haveI htr : IsTrans Item tieRel := ⟨tieRel_trans⟩
  apply sorted_perm_nodup_unique tieKey
  · exact (List.perm_insertionSort tieRel _).trans
      (hdp.trans (List.perm_insertionSort tieRel _).symm)
  · exact List.sorted_insertionSort tieRel (declump (filterStage ew l₁))
  · exact List.sorted_insertionSort tieRel (declump (filterStage ew l₂))
  · exact (List.Perm.map tieKey (List.perm_insertionSort tieRel _)).symm.nodup h4

/-- C1, witness: the amended statement on a two-item permutation with
distinct URLs, cluster keys and sort keys. -/
theorem C1_witness :
    apply_policy_core [c1a, c1c] "ARS" true = apply_policy_core [c1c, c1a] "ARS" true :=
  C1_amended "ARS" true [c1a, c1c] [c1c, c1a] (List.Perm.swap c1c c1a [])
    (by decide) (by decide) (by decide) (by decide)

/-- C1, counterexample: two items sharing a URL — exact dedup keeps the
first occurrence, so swapping the input order changes which one the
pipeline returns; the permuted input does not yield the same output. -/
theorem C1_counterexample :
    ([c1a, c1b] : List Item).Perm [c1b, c1a]
    ∧ apply_policy_core [c1a, c1b] "ARS" true ≠ apply_policy_core [c1b, c1a] "ARS" true :=
  ⟨List.Perm.swap c1b c1a [], by decide⟩

theorem fillAux_sub (l : List Item) (size : ℕ) (lim : List (String × ℕ)) (sel : List ℕ) :
    ∀ (fuel : ℕ) (cnt : List (String × ℕ)) (ch : List ℕ) (i : ℕ),
      ∀ j ∈ (fillAux l size lim sel fuel cnt ch i).2,
        j ∈ ch ∨ (i ≤ j ∧ j < l.length ∧ j ∉ sel) := by
  intro fuel
  induction fuel with
  | zero =>
      intro cnt ch i j hj
      rw [fillAux] at hj
      exact Or.inl hj
  | succ fuel ih =>
      intro cnt ch i j hj
      rw [fillAux] at hj
      by_cases hcond : ch.length + sel.length < size ∧ i < l.length
      · rw [if_pos hcond] at hj
        by_cases hisel : i ∈ sel
        · rw [if_pos hisel] at hj
          rcases ih cnt ch (i + 1) j hj with h | h
          · exact Or.inl h
          · exact Or.inr ⟨by omega, h.2⟩
        · rw [if_neg hisel] at hj
          dsimp only at hj
          by_cases hlim : (cnt.lookup (canonicalize_provider
                ((l.getD i dummyItem).provider.getD ""))).getD 0
              < (lim.lookup (canonicalize_provider
                ((l.getD i dummyItem).provider.getD ""))).getD 2
          · rw [if_pos hlim] at hj
            rcases ih _ (ch ++ [i]) (i + 1) j hj with h | h
            · rcases List.mem_append.1 h with h2 | h2
              · exact Or.inl h2
              · have hji : j = i := by simpa using h2
                subst hji
                exact Or.inr ⟨le_rfl, hcond.2, hisel⟩
            · exact Or.inr ⟨by omega, h.2⟩
          · rw [if_neg hlim] at hj
            rcases ih cnt ch (i + 1) j hj with h | h
            · exact Or.inl h
            · exact Or.inr ⟨by omega, h.2⟩
      · rw [if_neg hcond] at hj
        exact Or.inl hj

theorem setUpdate_mem : ∀ (idx sel : List ℕ) (j : ℕ),
    j ∈ setUpdate sel idx ↔ j ∈ sel ∨ j ∈ idx := by
  intro idx
  induction idx with
  | nil => intro sel j; simp [setUpdate]
  | cons i idx ih =>
      intro sel j
      have step : setUpdate sel (i :: idx)
          = setUpdate (if i ∈ sel then sel else sel ++ [i]) idx := by
        simp [setUpdate]
      rw [step, ih]
      by_cases h : i ∈ sel
      · rw [if_pos h]
        constructor
        · rintro (h2 | h2)
          · exact Or.inl h2
          · exact Or.inr (List.mem_cons_of_mem _ h2)
        · rintro (h2 | h2)
          · exact Or.inl h2
          · rcases List.mem_cons.1 h2 with rfl | h3
            · exact Or.inl h
            · exact Or.inr h3
      · rw [if_neg h]
        simp only [List.mem_append, List.mem_singleton, List.mem_cons]
        tauto

theorem setUpdate_nodup : ∀ (idx sel : List ℕ), sel.Nodup → (setUpdate sel idx).Nodup := by
  intro idx
  induction idx with
  | nil => intro sel h; exact h
  | cons i idx ih =>
      intro sel h
      have step : setUpdate sel (i :: idx)
          = setUpdate (if i ∈ sel then sel else sel ++ [i]) idx := by
        simp [setUpdate]
      rw [step]
      apply ih
      by_cases hi : i ∈ sel
      · rw [if_pos hi]; exact h
      · rw [if_neg hi]
        simp [List.nodup_append, h, hi]

theorem nodup_bounded_length_le (sel : List ℕ) (a b : ℕ) (h1 : sel.Nodup)
    (h2 : ∀ j ∈ sel, a ≤ j ∧ j < b) : sel.length ≤ b - a := by
  have hsub : sel.toFinset ⊆ Finset.Ico a b := by
    intro j hj
    exact Finset.mem_Ico.2 (h2 j (List.mem_toFinset.1 hj))
  calc sel.length = sel.toFinset.card := (List.toFinset_card_of_nodup h1).symm
    _ ≤ (Finset.Ico a b).card := Finset.card_le_card hsub
    _ = b - a := Nat.card_Ico a b

theorem nodup_covering_length_eq (sel : List ℕ) (a b : ℕ) (h1 : sel.Nodup)
    (h2 : ∀ j ∈ sel, a ≤ j ∧ j < b) (h3 : ∀ j, a ≤ j → j < b → j ∈ sel) :
    sel.length = b - a := by
  have hset : sel.toFinset = Finset.Ico a b := by
    apply Finset.ext
    intro j
    rw [List.mem_toFinset, Finset.mem_Ico]
    constructor
    · exact h2 j
    · intro hj
      exact h3 j hj.1 hj.2
  calc sel.length = sel.toFinset.card := (List.toFinset_card_of_nodup h1).symm
    _ = (Finset.Ico a b).card := by rw [hset]
    _ = b - a := Nat.card_Ico a b

theorem pageSlice_length (l : List Item) (sel : List ℕ) (size : ℕ) :
    (pageSlice l sel size).length = min size sel.length := by
  simp [pageSlice, (List.perm_insertionSort (· ≤ ·) sel).length_eq]

theorem finalFill_spec (l : List Item) (size : ℕ) :
    ∀ (fuel : ℕ) (sel : List ℕ) (i : ℕ),
      l.length - i ≤ fuel → sel.length ≤ size → sel.Nodup →
      (∀ j ∈ finalFill l size fuel sel i, j ∈ sel ∨ (i ≤ j ∧ j < l.length))
      ∧ (finalFill l size fuel sel i).Nodup
      ∧ (∀ j ∈ sel, j ∈ finalFill l size fuel sel i)
      ∧ (finalFill l size fuel sel i).length ≤ size
      ∧ ((finalFill l size fuel sel i).length = size
         ∨ (∀ j, i ≤ j → j < l.length → j ∈ finalFill l size fuel sel i)) := by
  intro fuel
  induction fuel with
  | zero =>
      intro sel i hfuel hlen hnd
      rw [finalFill]
      refine ⟨fun j hj => Or.inl hj, hnd, fun j hj => hj, hlen, Or.inr ?_⟩
      intro j hij hjn
      omega
  | succ fuel ih =>
      intro sel i hfuel hlen hnd
      rw [finalFill]
      by_cases hcond : sel.length < size ∧ i < l.length
      · rw [if_pos hcond]
        set sel2 := if i ∈ sel then sel else sel ++ [i] with hsel2
        have hmem2 : ∀ j, j ∈ sel2 ↔ j ∈ sel ∨ j = i := by
          intro j
          rw [hsel2]
          by_cases hi : i ∈ sel
          · rw [if_pos hi]
            constructor
            · exact Or.inl
            · rintro (h | rfl)
              · exact h
              · exact hi
          · rw [if_neg hi]
            simp
        have hnd2 : sel2.Nodup := by
          rw [hsel2]
          by_cases hi : i ∈ sel
          · rw [if_pos hi]; exact hnd
          · rw [if_neg hi]; simp [List.nodup_append, hnd, hi]
        have hlen2 : sel2.length ≤ size := by
          rw [hsel2]
          by_cases hi : i ∈ sel
          · rw [if_pos hi]; omega
          · rw [if_neg hi]
            simp only [List.length_append, List.length_singleton]
            omega
        obtain ⟨a1, a2, a3, a4, a5⟩ := ih sel2 (i + 1) (by omega) hlen2 hnd2
        refine ⟨?_, a2, ?_, a4, ?_⟩
        · intro j hj
          rcases a1 j hj with h | h
          · rcases (hmem2 j).1 h with h2 | rfl
            · exact Or.inl h2
            · exact Or.inr ⟨le_rfl, hcond.2⟩
          · exact Or.inr ⟨by omega, h.2⟩
        · intro j hj
          exact a3 j ((hmem2 j).2 (Or.inl hj))
        · rcases a5 with h | h
          · exact Or.inl h
          · right
            intro j hij hjn
            rcases Nat.eq_or_lt_of_le hij with heq | hlt
            · exact a3 j ((hmem2 j).2 (Or.inr heq.symm))
            · exact h j (by omega) hjn
      · rw [if_neg hcond]
        refine ⟨fun j hj => Or.inl hj, hnd, fun j hj => hj, hlen, ?_⟩
        rcases Nat.lt_or_ge sel.length size with hlt | hge
        · right
          intro j hij hjn
          exact absurd ⟨hlt, by omega⟩ hcond
        · left
          omega

theorem pwcSel1_facts (l : List Item) (page size : ℕ) (capsOpt : Option (List (String × ℕ))) :
    (pwcSel1 l page size capsOpt).Nodup
    ∧ ∀ j ∈ pwcSel1 l page size capsOpt, pwcStart page size ≤ j ∧ j < l.length := by
  constructor
  · exact setUpdate_nodup _ [] List.nodup_nil
  · intro j hj
    rcases (setUpdate_mem _ [] j).1 hj with h | h
    · exact absurd h (List.not_mem_nil j)
    · rcases fillAux_sub l size (pwcCaps capsOpt) [] l.length _ [] _ j h with h2 | h2
      · exact absurd h2 (List.not_mem_nil j)
      · exact ⟨h2.1, h2.2.1⟩

theorem pwcSel2_facts (l : List Item) (page size : ℕ) (capsOpt : Option (List (String × ℕ))) :
    (pwcSel2 l page size capsOpt).Nodup
    ∧ ∀ j ∈ pwcSel2 l page size capsOpt, pwcStart page size ≤ j ∧ j < l.length := by
  obtain ⟨hnd1, hb1⟩ := pwcSel1_facts l page size capsOpt
  constructor
  · exact setUpdate_nodup _ _ hnd1
  · intro j hj
    rcases (setUpdate_mem _ _ j).1 hj with h | h
    · exact hb1 j h
    · rcases fillAux_sub l size _ (pwcSel1 l page size capsOpt) l.length _ [] _ j h with h2 | h2
      · exact absurd h2 (List.not_mem_nil j)
      · exact ⟨h2.1, h2.2.1⟩

theorem pwcSel3_facts (l : List Item) (page size : ℕ) (capsOpt : Option (List (String × ℕ))) :
    (pwcSel3 l page size capsOpt).Nodup
    ∧ ∀ j ∈ pwcSel3 l page size capsOpt, pwcStart page size ≤ j ∧ j < l.length := by
  obtain ⟨hnd2, hb2⟩ := pwcSel2_facts l page size capsOpt
  constructor
  · exact setUpdate_nodup _ _ hnd2
  · intro j hj
    rcases (setUpdate_mem _ _ j).1 hj with h | h
    · exact hb2 j h
    · rcases fillAux_sub l size _ (pwcSel2 l page size capsOpt) l.length _ [] _ j h with h2 | h2
      · exact absurd h2 (List.not_mem_nil j)
      · exact ⟨h2.1, h2.2.1⟩

/-- C2 — page fill bound: for every corpus, page ≥ 1 and pageSize ≥ 1,
`page_with_caps` returns exactly `min pageSize (corpusLength - (page-1)*pageSize)`
items (natural subtraction clamps at 0); in particular the output never
exceeds `pageSize` and is empty whenever the start offset is at or beyond
the corpus length. -/
theorem C2_thm (l : List Item) (page size : ℕ) (capsOpt : Option (List (String × ℕ)))
    (hp : 1 ≤ page) (hs : 1 ≤ size) :
    (page_with_caps l page size capsOpt).length
      = min size (l.length - (page - 1) * size) := by
  have _hp := hp
  have _hs := hs
  have hstart : pwcStart page size = (page - 1) * size := Nat.zero_max _
  rw [← hstart, page_with_caps]
  split_ifs with g0 g1 g2 g3
  · simp only [List.length_nil]
    omega
  · rw [pageSlice_length]
    obtain ⟨hnd, hb⟩ := pwcSel1_facts l page size capsOpt
    have hle := nodup_bounded_length_le _ _ _ hnd hb
    omega
  · rw [pageSlice_length]
    obtain ⟨hnd, hb⟩ := pwcSel2_facts l page size capsOpt
    have hle := nodup_bounded_length_le _ _ _ hnd hb
    omega
  · rw [pageSlice_length]
    obtain ⟨hnd, hb⟩ := pwcSel3_facts l page size capsOpt
    have hle := nodup_bounded_length_le _ _ _ hnd hb
    omega
  · rw [pageSlice_length]
    obtain ⟨hnd, hb⟩ := pwcSel3_facts l page size capsOpt
    obtain ⟨a1, a2, a3, a4, a5⟩ :=
      finalFill_spec l size l.length (pwcSel3 l page size capsOpt) (pwcStart page size)
        (Nat.sub_le _ _) (by omega) hnd
    have hbnd : ∀ j ∈ finalFill l size l.length (pwcSel3 l page size capsOpt)
        (pwcStart page size), pwcStart page size ≤ j ∧ j < l.length := by
      intro j hj
      rcases a1 j hj with h | h
      · exact hb j h
      · exact h
    rcases a5 with hsz | hcov
    · have hle := nodup_bounded_length_le _ _ _ a2 hbnd
      omega
    · have heq := nodup_covering_length_eq _ _ _ a2 hbnd hcov
      omega

/-- Witness for C2 at a concrete corpus of three items, page 2,
pageSize 2: one item remains. -/
theorem C2_witness :
    (page_with_caps c2list 2 2 none).length = min 2 (c2list.length - (2 - 1) * 2) :=
  C2_thm c2list 2 2 none (by decide) (by decide)
